import Mathlib

/-!
Verification development for the metabolomics-hypothesis-generator repository.

The definitions below are a shallow embedding of the CORE of `src/App.jsx`:
the strict JSON parser used through JavaScript's `JSON.parse`, the resilient
extractor `parseJSONSafely`, the CSV ingest `parseCSV`, the statistical
summarizer `summarizeData`, the significant-row filter of `buildContext`,
and the three orchestrator workflows' state transitions.

Modelling conventions:
  - JavaScript strings are `String`/`List Char`; machine floats produced by
    `parseFloat` are modelled as `ℚ` (the claims only involve exactly
    representable comparisons such as 0.5 and strict inequalities, where the
    rational and double orders agree); the float `NaN` is a dedicated
    constructor.
  - `JSON.parse` numbers keep their source lexeme (a `String`): no claim
    compares two distinct spellings of one numeric value, so this is finer
    than, and compatible with, the double semantics.
  - Fallible JavaScript code (a `JSON.parse` that can throw) returns
    `Option`; the fuel argument of the parser is an embedding artifact that
    is always supplied large enough (monotonicity is proved where needed).
-/

/-- Characters that `JSON.parse` treats as insignificant whitespace. -/
def isJsonWs (c : Char) : Bool :=
  c = ' ' || c = '\t' || c = '\n' || c = '\r'

/-- Decimal digit test. -/
def isDigitC (c : Char) : Bool :=
  '0' ≤ c && c ≤ '9'

/-- Hexadecimal digit test (for string escapes of the form backslash-u). -/
def isHexC (c : Char) : Bool :=
  isDigitC c || ('a' ≤ c && c ≤ 'f') || ('A' ≤ c && c ≤ 'F')

/-- Value of a hexadecimal digit. -/
def hexVal (c : Char) : Nat :=
  if isDigitC c then c.toNat - '0'.toNat
  else if 'a' ≤ c && c ≤ 'f' then c.toNat - 'a'.toNat + 10
  else c.toNat - 'A'.toNat + 10

/-- The JSON values produced by `JSON.parse`. Numbers keep their raw lexeme;
object members are kept in source order (JavaScript would collapse duplicate
keys last-wins; the inputs in all claims have distinct keys). -/
inductive Json where
  | null : Json
  | bool : Bool → Json
  | num : String → Json
  | str : String → Json
  | arr : List Json → Json
  | obj : List (String × Json) → Json
deriving Repr

/-- Body of a JSON string literal, after the opening quote: returns the
decoded characters and the input remaining after the closing quote.
Invalid escapes, raw control characters and unterminated literals fail,
as they do in `JSON.parse`. -/
def lexStrBody : List Char → Option (List Char × List Char)
  | [] => none
  | '"' :: rest => some ([], rest)
  | '\\' :: esc =>
    match esc with
    | '"' :: r => (lexStrBody r).map (fun p => ('"' :: p.1, p.2))
    | '\\' :: r => (lexStrBody r).map (fun p => ('\\' :: p.1, p.2))
    | '/' :: r => (lexStrBody r).map (fun p => ('/' :: p.1, p.2))
    | 'b' :: r => (lexStrBody r).map (fun p => ('\x08' :: p.1, p.2))
    | 'f' :: r => (lexStrBody r).map (fun p => ('\x0c' :: p.1, p.2))
    | 'n' :: r => (lexStrBody r).map (fun p => ('\n' :: p.1, p.2))
    | 'r' :: r => (lexStrBody r).map (fun p => ('\r' :: p.1, p.2))
    | 't' :: r => (lexStrBody r).map (fun p => ('\t' :: p.1, p.2))
    | 'u' :: h1 :: h2 :: h3 :: h4 :: r =>
      if isHexC h1 && isHexC h2 && isHexC h3 && isHexC h4 then
        (lexStrBody r).map (fun p =>
          (Char.ofNat (((hexVal h1 * 16 + hexVal h2) * 16 + hexVal h3) * 16 + hexVal h4) :: p.1,
           p.2))
      else none
    | _ => none
  | c :: rest =>
    if c.toNat < 32 then none
    else (lexStrBody rest).map (fun p => (c :: p.1, p.2))

/-- Integer part of a JSON number: a single zero, or a nonzero digit followed
by digits. Returns the lexeme consumed and the rest. -/
def lexIntPart : List Char → Option (List Char × List Char)
  | [] => none
  | c :: rest =>
    if c = '0' then some (['0'], rest)
    else if isDigitC c then
      some (c :: rest.takeWhile isDigitC, rest.dropWhile isDigitC)
    else none

/-- Optional fraction part: a dot with at least one digit, or nothing. -/
def lexFracPart : List Char → Option (List Char × List Char)
  | [] => some ([], [])
  | c :: rest =>
    if c = '.' then
      match rest.takeWhile isDigitC with
      | [] => none
      | ds => some ('.' :: ds, rest.dropWhile isDigitC)
    else some ([], c :: rest)

/-- Optional exponent part: e or E, an optional sign, at least one digit. -/
def lexExpPart (cs : List Char) : Option (List Char × List Char) :=
  match cs with
  | c :: rest =>
    if c = 'e' || c = 'E' then
      match rest with
      | s :: rest2 =>
        if s = '+' || s = '-' then
          match rest2.takeWhile isDigitC with
          | [] => none
          | ds => some (c :: s :: ds, rest2.dropWhile isDigitC)
        else
          match rest.takeWhile isDigitC with
          | [] => none
          | ds => some (c :: ds, rest.dropWhile isDigitC)
      | [] => none
    else some ([], cs)
  | [] => some ([], cs)

/-- The unsigned part of a number lexeme: integer part, optional fraction,
optional exponent. -/
def lexNumCore (cs0 : List Char) : Option (List Char × List Char) :=
  match lexIntPart cs0 with
  | none => none
  | some (ip, r1) =>
    match lexFracPart r1 with
    | none => none
    | some (fp, r2) =>
      match lexExpPart r2 with
      | none => none
      | some (ep, r3) => some (ip ++ fp ++ ep, r3)

/-- A full JSON number lexeme: optional minus, integer part, optional
fraction, optional exponent. -/
def lexNumber (cs : List Char) : Option (List Char × List Char) :=
  match cs with
  | [] => none
  | c :: rest =>
    if c = '-' then (lexNumCore rest).map (fun p => ('-' :: p.1, p.2))
    else lexNumCore (c :: rest)

/-- Parsing mode for the fused recursive-descent JSON parser: a single value,
the items of an array after its opening bracket, or the members of an object
after its opening brace. Fusing the three mutually recursive procedures into
one function keeps the recursion structural in the fuel. -/
inductive PMode where
  | val : PMode
  | items : List Json → PMode
  | members : List (String × Json) → PMode

/-- The recursive core of `JSON.parse`: strict grammar of json.org. -/
def parseCore : Nat → PMode → List Char → Option (Json × List Char)
  | 0, _, _ => none
  | Nat.succ fuel, PMode.val, cs =>
    match cs.dropWhile isJsonWs with
    | [] => none
    | c :: rest =>
      if c = '{' then
        let r := rest.dropWhile isJsonWs
        if r.head? = some '}' then some (Json.obj [], r.tail)
        else parseCore fuel (PMode.members []) r
      else if c = '[' then
        let r := rest.dropWhile isJsonWs
        if r.head? = some ']' then some (Json.arr [], r.tail)
        else parseCore fuel (PMode.items []) r
      else if c = '"' then
        match lexStrBody rest with
        | some (s, r) => some (Json.str (String.mk s), r)
        | none => none
      else if c = 't' then
        match rest with
        | 'r' :: 'u' :: 'e' :: r2 => some (Json.bool true, r2)
        | _ => none
      else if c = 'f' then
        match rest with
        | 'a' :: 'l' :: 's' :: 'e' :: r2 => some (Json.bool false, r2)
        | _ => none
      else if c = 'n' then
        match rest with
        | 'u' :: 'l' :: 'l' :: r2 => some (Json.null, r2)
        | _ => none
      else
        match lexNumber (c :: rest) with
        | some (lx, r) => some (Json.num (String.mk lx), r)
        | none => none
  | Nat.succ fuel, PMode.items acc, cs =>
    match parseCore fuel PMode.val cs with
    | none => none
    | some (v, rest) =>
      let r := rest.dropWhile isJsonWs
      match r with
      | ',' :: r2 => parseCore fuel (PMode.items (acc ++ [v])) r2
      | ']' :: r2 => some (Json.arr (acc ++ [v]), r2)
      | _ => none
  | Nat.succ fuel, PMode.members acc, cs =>
    match cs with
    | '"' :: rest =>
      match lexStrBody rest with
      | none => none
      | some (k, r1) =>
        let r2 := r1.dropWhile isJsonWs
        match r2 with
        | ':' :: r3 =>
          match parseCore fuel PMode.val r3 with
          | none => none
          | some (v, rest2) =>
            let r4 := rest2.dropWhile isJsonWs
            match r4 with
            | ',' :: r5 => parseCore fuel (PMode.members (acc ++ [(String.mk k, v)])) (r5.dropWhile isJsonWs)
            | '}' :: r5 => some (Json.obj (acc ++ [(String.mk k, v)]), r5)
            | _ => none
        | _ => none
    | _ => none

/-- Strict `JSON.parse` on a character list: one value, then only trailing
whitespace. The fuel bound is generous; each grammar production consumes at
least one character per two units of fuel. -/
def parseJsonL (cs : List Char) : Option Json :=
  match parseCore (2 * cs.length + 2) PMode.val cs with
  | some (v, rest) => if (rest.dropWhile isJsonWs).isEmpty then some v else none
  | none => none

/-- Strict `JSON.parse` on a string. -/
def parseJson (s : String) : Option Json :=
  parseJsonL s.data

/-- Suffix of `cs` starting at the first occurrence of `o`, if any.  This is
how the regexes of the form "first opening bracket to end of text" locate
their match. -/
def dropBefore (o : Char) : List Char → Option (List Char)
  | [] => none
  | c :: cs => if c = o then some (c :: cs) else dropBefore o cs

/-- Prefix of `cs` ending at (and including) the last occurrence of `cl`,
if any. -/
def takeThroughLast (cl : Char) : List Char → Option (List Char)
  | [] => none
  | a :: as =>
    match takeThroughLast cl as with
    | some r => some (a :: r)
    | none => if a = cl then some [a] else none

/-- Model of the greedy regex match from the first opening bracket to the
last closing bracket of the same kind (the pattern used by the direct-match
step of `parseJSONSafely`): succeeds when a closing bracket occurs after the
first opening bracket, like the JavaScript regex. -/
def jsMatchGreedy (o cl : Char) (cs : List Char) : Option (List Char) :=
  match dropBefore o cs with
  | none => none
  | some s =>
    match s with
    | [] => none
    | c0 :: tail =>
      match takeThroughLast cl tail with
      | some r => some (c0 :: r)
      | none => none

/-- Model of the regex match from the first opening bracket to end of text
(the truncation-repair step's starting point). -/
def jsMatchToEnd (o : Char) (cs : List Char) : Option (List Char) :=
  dropBefore o cs

/-- Whitespace class of the JavaScript regexes' backslash-s. -/
def isRegexWs (c : Char) : Bool :=
  c = ' ' || c = '\t' || c = '\n' || c = '\r' || c = '\x0b' || c = '\x0c' || c = ' '

/-- Trim pattern 1: a comma, whitespace, a quote, then no further quote up to
the end of the text (a trailing incomplete string element). -/
def tm1 (cs : List Char) : Bool :=
  cs.head? = some ',' &&
    (let u := cs.tail.dropWhile isRegexWs
     u.head? = some '"' && (u.drop 1).all (fun c => c ≠ '"'))

/-- Trim pattern 2: comma, whitespace, a complete quoted key, a colon,
whitespace, a quote, then no further quote up to the end (a trailing
incomplete string-valued member). -/
def tm2 (cs : List Char) : Bool :=
  cs.head? = some ',' &&
    (let u := cs.tail.dropWhile isRegexWs
     u.head? = some '"' &&
      (let w := (u.drop 1).dropWhile (fun c => c ≠ '"')
       w.head? = some '"' && (w.drop 1).head? = some ':' &&
        (let z := (w.drop 2).dropWhile isRegexWs
         z.head? = some '"' && (z.drop 1).all (fun c => c ≠ '"'))))

/-- Trim pattern 3: comma, whitespace, a complete quoted key, a colon,
whitespace, an opening square bracket, then no closing square bracket up to
the end (a trailing incomplete array-valued member). -/
def tm3 (cs : List Char) : Bool :=
  cs.head? = some ',' &&
    (let u := cs.tail.dropWhile isRegexWs
     u.head? = some '"' &&
      (let w := (u.drop 1).dropWhile (fun c => c ≠ '"')
       w.head? = some '"' && (w.drop 1).head? = some ':' &&
        (let z := (w.drop 2).dropWhile isRegexWs
         z.head? = some '[' && (z.drop 1).all (fun c => c ≠ ']'))))

/-- Trim pattern 4: comma, whitespace, a complete quoted key, a colon, then
only whitespace up to the end (a trailing member with no value). -/
def tm4 (cs : List Char) : Bool :=
  cs.head? = some ',' &&
    (let u := cs.tail.dropWhile isRegexWs
     u.head? = some '"' &&
      (let w := (u.drop 1).dropWhile (fun c => c ≠ '"')
       w.head? = some '"' && (w.drop 1).head? = some ':' &&
        ((w.drop 2).dropWhile isRegexWs).isEmpty))

/-- Trim pattern 5: a comma followed by only whitespace (a trailing comma). -/
def tm5 (cs : List Char) : Bool :=
  cs.head? = some ',' && (cs.tail.dropWhile isRegexWs).isEmpty

/-- Trim pattern 6: comma, whitespace, an opening brace, then no closing
brace up to the end (a trailing incomplete nested object). -/
def tm6 (cs : List Char) : Bool :=
  cs.head? = some ',' &&
    (let u := cs.tail.dropWhile isRegexWs
     u.head? = some '{' && (u.drop 1).all (fun c => c ≠ '}'))

/-- `String.replace(pattern, empty)` for an end-anchored pattern: the
leftmost matching suffix is deleted; if no suffix matches, the text is kept.
Each of the six trim regexes is end-anchored, so its unique match, when one
exists, is the longest matching suffix. -/
def trimSuffix (m : List Char → Bool) : List Char → List Char
  | [] => []
  | c :: cs => if m (c :: cs) then [] else c :: trimSuffix m cs

/-- The six trailing-garbage trims of `parseJSONSafely`, in source order. -/
def trimAll (cs : List Char) : List Char :=
  trimSuffix tm6 (trimSuffix tm5 (trimSuffix tm4 (trimSuffix tm3 (trimSuffix tm2 (trimSuffix tm1 cs)))))

/-- The string-literal-aware bracket/brace counter of `parseJSONSafely`:
walks the text with an escape flag (set by a backslash, consuming the next
character) and an in-string flag (toggled by unescaped quotes), and tallies
net-open square brackets and braces outside string literals.  Returns
(net square brackets, net braces); both may be negative. -/
def countLoop : List Char → Bool → Bool → Int → Int → Int × Int
  | [], _, _, bk, br => (bk, br)
  | c :: cs, esc, inStr, bk, br =>
    if esc then countLoop cs false inStr bk br
    else if c = '\\' then countLoop cs true inStr bk br
    else if c = '"' then countLoop cs false (!inStr) bk br
    else if inStr then countLoop cs false inStr bk br
    else if c = '[' then countLoop cs false inStr (bk + 1) br
    else if c = ']' then countLoop cs false inStr (bk - 1) br
    else if c = '{' then countLoop cs false inStr bk (br + 1)
    else if c = '}' then countLoop cs false inStr bk (br - 1)
    else countLoop cs false inStr bk br

/-- Append the closers computed by the counter: first the missing closing
braces, then the missing closing brackets, exactly as the two loops in the
source do (no closers are appended for a negative count). -/
def closeOpen (cs : List Char) : List Char :=
  let c := countLoop cs false false 0 0
  cs ++ List.replicate c.2.toNat '}' ++ List.replicate c.1.toNat ']'

/-- Index of the last occurrence of the two-character sequence brace-comma,
mirroring `lastIndexOf` in the last-complete-element fallback. -/
def lastBraceCommaIdx : List Char → Nat → Option Nat → Option Nat
  | [], _, best => best
  | '}' :: ',' :: rest, i, _ => lastBraceCommaIdx (',' :: rest) (i + 1) (some i)
  | _ :: rest, i, best => lastBraceCommaIdx rest (i + 1) best

/-- The last-complete-element fallback's candidate string: truncate at the
last brace-comma (keeping the brace) and append a single closing bracket.
The source requires the found index to be strictly positive. -/
def lastCompleteCut (cs : List Char) : Option (List Char) :=
  match lastBraceCommaIdx cs 0 none with
  | some i => if i > 0 then some (cs.take (i + 1) ++ [']']) else none
  | none => none

/-- One step of the per-element salvage scan (strategy 4).  The scan is NOT
string-literal aware in the source (unlike the counter above): it tracks
only brace depth, records the span of every top-level brace group, and
strict-parses each span, silently skipping spans that fail to parse. -/
def salvageLoop : List Char → Int → Option (List Char) → List Json → List Json
  | [], _, _, acc => acc
  | c :: cs, depth, buf, acc =>
    let buf1 : Option (List Char) := if c = '{' && depth = 0 then some [] else buf
    let depth1 : Int := if c = '{' then depth + 1 else if c = '}' then depth - 1 else depth
    if c = '}' && depth1 = 0 && buf1.isSome then
      let objStr := (buf1.getD []) ++ [c]
      match parseJsonL objStr with
      | some v => salvageLoop cs depth1 none (acc ++ [v])
      | none => salvageLoop cs depth1 none acc
    else
      salvageLoop cs depth1 (buf1.map (fun b => b ++ [c])) acc

/-- The per-element salvage of strategy 4 on the repaired string. -/
def salvageObjects (cs : List Char) : List Json :=
  salvageLoop cs 0 none []

/-- The repaired string of the truncation-repair step: from the first opening
bracket to end of text, the six trailing-garbage trims, then the appended
closers.  `none` when the text has no opening bracket of the requested
kind. -/
def repairedOf (isArray : Bool) (cs : List Char) : Option (List Char) :=
  (jsMatchToEnd (if isArray then '[' else '{') cs).map (fun j0 => closeOpen (trimAll j0))

/-- The resilient extractor `parseJSONSafely` of the source, shape `true` for
arrays and `false` for objects, following the source's control flow: empty
text short-circuits to `none`; the direct greedy match is strict-parsed; on
failure the repaired string is strict-parsed; on failure, for arrays only,
the last-complete-element cut is strict-parsed; on failure, for arrays only,
the per-element salvage result is returned when non-empty; otherwise
`none`. -/
def parseJSONSafely (text : String) (isArray : Bool) : Option Json :=
  if text = "" then none
  else
    match (jsMatchGreedy (if isArray then '[' else '{') (if isArray then ']' else '}') text.data).bind parseJsonL with
    | some v => some v
    | none =>
      match repairedOf isArray text.data with
      | none => none
      | some j2 =>
        match parseJsonL j2 with
        | some v => some v
        | none =>
          if isArray then
            match (lastCompleteCut j2).bind parseJsonL with
            | some v => some v
            | none =>
              let objs := salvageObjects j2
              if objs.isEmpty then none else some (Json.arr objs)
          else none

/-- Strategy 1 of the spec's extractor algorithm, as a standalone function:
greedy bracket match then strict parse. -/
def strategyDirect (text : String) (isArray : Bool) : Option Json :=
  (jsMatchGreedy (if isArray then '[' else '{') (if isArray then ']' else '}') text.data).bind parseJsonL

/-- Strategy 2: strict parse of the repaired string. -/
def strategyRepair (text : String) (isArray : Bool) : Option Json :=
  (repairedOf isArray text.data).bind parseJsonL

/-- Strategy 3 (array shape only): strict parse of the last-complete-element
cut of the repaired string. -/
def strategyLastElement (text : String) (isArray : Bool) : Option Json :=
  if isArray then
    (repairedOf isArray text.data).bind (fun j2 => (lastCompleteCut j2).bind parseJsonL)
  else none

/-- Strategy 4 (array shape only): the per-element salvage of the repaired
string, when it finds at least one object. -/
def strategySalvage (text : String) (isArray : Bool) : Option Json :=
  if isArray then
    (repairedOf isArray text.data).bind (fun j2 =>
      let objs := salvageObjects j2
      if objs.isEmpty then none else some (Json.arr objs))
  else none

/-- A JSON integer-literal token as the strict parser's number lexer accepts
it when standing alone: a single zero, or a nonzero digit followed by
digits. -/
def intPartTok (t : List Char) : Bool :=
  match t with
  | [] => false
  | c :: rest => if c = '0' then rest.isEmpty else isDigitC c && rest.all isDigitC

/-- A signed JSON integer-literal token: an optional leading minus before
the digits. -/
def intTokOK (t : List Char) : Bool :=
  match t with
  | [] => false
  | c :: rest => if c = '-' then intPartTok rest else intPartTok (c :: rest)

/-- Comma-join of element texts, as they appear inside an array
serialization. -/
def joinToksC : List (List Char) → List Char
  | [] => []
  | [t] => t
  | t :: ts => t ++ ',' :: joinToksC ts

/-- The truncation of a JSON array serialization immediately after a
complete top-level element: the opening bracket, the first elements and the
separating commas, with everything from the following comma (or the closing
bracket) on cut off. -/
def arrayPrefixText (toks : List (List Char)) : List Char :=
  '[' :: joinToksC toks

/-- JavaScript whitespace trimmed by `String.prototype.trim`. -/
def isJsWsTrim (c : Char) : Bool :=
  c = ' ' || c = '\t' || c = '\n' || c = '\r' || c = '\x0b' || c = '\x0c' || c = ' '

/-- `text.trim()`. -/
def jsTrim (s : String) : String :=
  String.mk (((s.data.dropWhile isJsWsTrim).reverse.dropWhile isJsWsTrim).reverse)

/-- `replace` with a global double-quote pattern and empty replacement:
removes every double quote. -/
def stripQuotes (s : String) : String :=
  String.mk (s.data.filter (fun c => c ≠ '"'))

/-- A cell value after `parseCSV`'s coercion: a parsed number, a kept
non-numeric string, or the float NaN (produced for cells such as the empty
string, whose `Number` coercion is not NaN but whose `parseFloat` is). -/
inductive Value where
  | num : ℚ → Value
  | str : String → Value
  | nan : Value
deriving Repr, DecidableEq

/-- Unsigned decimal digits to a natural number. -/
def digitsToNat (ds : List Char) : Nat :=
  ds.foldl (fun acc c => acc * 10 + (c.toNat - '0'.toNat)) 0

/-- Value of a decimal literal: integer digits, optional fractional digits,
optional signed decimal exponent, as an exact rational. -/
def decimalToQ (ip fp : List Char) (expSign : Bool) (ed : List Char) : ℚ :=
  let mant : ℚ := (digitsToNat ip : ℚ) + (digitsToNat fp : ℚ) / ((10 : ℚ) ^ fp.length)
  let e : ℤ := (if expSign then -1 else 1) * (digitsToNat ed : ℤ)
  mant * (10 : ℚ) ^ e

/-- `Number(string)` for the decimal grammar: used only through `isNaN` in
`parseCSV`'s cell coercion.  Returns `none` for NaN.  A trimmed empty string
is 0; otherwise the whole trimmed string must be a signed decimal literal
with digits on at least one side of the dot, with an optional exponent.
(Hex literals and the Infinity keyword, which no claim involves, are not
modelled and coerce to NaN here.) -/
def jsStringToNumber (s : String) : Option ℚ :=
  let cs := (jsTrim s).data
  if cs.isEmpty then some 0
  else
    let (neg, cs) : Bool × List Char :=
      match cs with
      | '-' :: r => (true, r)
      | '+' :: r => (false, r)
      | r => (false, r)
    let ip := cs.takeWhile isDigitC
    let r1 := cs.dropWhile isDigitC
    let (fp, r2) : List Char × List Char :=
      match r1 with
      | '.' :: t => (t.takeWhile isDigitC, t.dropWhile isDigitC)
      | t => ([], t)
    if ip.isEmpty && fp.isEmpty then none
    else
      match r2 with
      | [] => some ((if neg then -1 else 1) * decimalToQ ip fp false [])
      | e :: t =>
        if e = 'e' || e = 'E' then
          let (esign, t2) : Bool × List Char :=
            match t with
            | '-' :: u => (true, u)
            | '+' :: u => (false, u)
            | u => (false, u)
          let ed := t2.takeWhile isDigitC
          let r3 := t2.dropWhile isDigitC
          if ed.isEmpty || ¬ r3.isEmpty then none
          else some ((if neg then -1 else 1) * decimalToQ ip fp esign ed)
        else none

/-- `parseFloat(string)`: parses the longest numeric-literal prefix of the
trimmed string; NaN (`none`) when no digits can be consumed.  (The claims
never evaluate it on exotic inputs; it is kept for a faithful `parseCSV`.) -/
def parseFloatQ (s : String) : Option ℚ :=
  let cs := (jsTrim s).data
  let (neg, cs) : Bool × List Char :=
    match cs with
    | '-' :: r => (true, r)
    | '+' :: r => (false, r)
    | r => (false, r)
  let ip := cs.takeWhile isDigitC
  let r1 := cs.dropWhile isDigitC
  let (fp, r2) : List Char × List Char :=
    match r1 with
    | '.' :: t => (t.takeWhile isDigitC, t.dropWhile isDigitC)
    | t => ([], t)
  if ip.isEmpty && fp.isEmpty then none
  else
    let withExp : Option (Bool × List Char) :=
      match r2 with
      | e :: t =>
        if e = 'e' || e = 'E' then
          match t with
          | '-' :: u => if (u.takeWhile isDigitC).isEmpty then none else some (true, u.takeWhile isDigitC)
          | '+' :: u => if (u.takeWhile isDigitC).isEmpty then none else some (false, u.takeWhile isDigitC)
          | u => if (u.takeWhile isDigitC).isEmpty then none else some (false, u.takeWhile isDigitC)
        else none
      | [] => none
    match withExp with
    | some (esign, ed) => some ((if neg then -1 else 1) * decimalToQ ip fp esign ed)
    | none => some ((if neg then -1 else 1) * decimalToQ ip fp false [])

/-- The cell coercion of `parseCSV`: keep the string when its `Number`
coercion is NaN, else take its `parseFloat` value (NaN when `parseFloat`
finds no digits, e.g. for the empty cell). -/
def cellValue (s : String) : Value :=
  match jsStringToNumber s with
  | none => Value.str s
  | some _ =>
    match parseFloatQ s with
    | some q => Value.num q
    | none => Value.nan

/-- A row: column name to cell, in header order.  A `none` cell models the
JavaScript `undefined` assigned when the line has fewer cells than there are
headers. -/
def Row : Type := List (String × Option Value)

/-- Property read `row[k]`: the last assignment wins, as in the JavaScript
object built by the header loop. -/
def rowGet (r : Row) (k : String) : Option Value :=
  match List.lookup k r.reverse with
  | some v => v
  | none => none

/-- `split` on a one-character separator, as `String.prototype.split` with
the separators used by `parseCSV` (newline and comma): never returns an
empty list; the empty string yields one empty field. -/
def splitOnChar (sep : Char) : List Char → List (List Char)
  | [] => [[]]
  | c :: cs =>
    match splitOnChar sep cs with
    | [] => [[]]
    | g :: gs => if c = sep then [] :: g :: gs else (c :: g) :: gs

/-- `parseCSV`: trim, split into lines, first line split on commas into
headers (cells trimmed and stripped of quotes), each further line one row.
Never fails; empty input yields one empty header and no rows. -/
def parseCSV (text : String) : List String × List Row :=
  let lines := splitOnChar '\n' (jsTrim text).data
  let headers := (splitOnChar ',' (lines.headD [])).map (fun h => stripQuotes (jsTrim (String.mk h)))
  let data : List Row := lines.tail.map (fun line =>
    let values := (splitOnChar ',' line).map (fun v => stripQuotes (jsTrim (String.mk v)))
    (headers.enum.map (fun hi => (hi.2, (values.get? hi.1).map cellValue))))
  (headers, data)

/-- The detected column roles consumed by the summarizer and context
builder: each role is the first matching header, or absent. -/
structure Columns where
  metabolite : Option String
  foldChange : Option String
  pValue : Option String
  pathway : Option String

/-- Read a role column from a row: an absent role reads as `undefined`. -/
def getCol (r : Row) (c : Option String) : Option Value :=
  match c with
  | some k => rowGet r k
  | none => none

/-- JavaScript truthiness of a cell value (`undefined` is handled by the
callers through `Option`): 0, NaN and the empty string are falsy. -/
def vTruthy : Value → Bool
  | Value.num q => q ≠ 0
  | Value.str s => s ≠ ""
  | Value.nan => false

/-- `a || d` on a possibly-undefined cell value: the value when truthy, else
the default. -/
def jsOr (v : Option Value) (d : Value) : Value :=
  match v with
  | some w => if vTruthy w then w else d
  | none => d

/-- `Math.abs` on a cell value.  A string cell coerces through `Number`;
every string cell produced by `parseCSV` has NaN coercion (numeric strings
were already converted), so string cells map to NaN. -/
def vAbs : Value → Value
  | Value.num q => Value.num |q|
  | _ => Value.nan

/-- `v > q` with JavaScript semantics on cell values: false for NaN, and for
string cells (whose `Number` coercion is NaN after `parseCSV`). -/
def vGtQ (v : Value) (q : ℚ) : Bool :=
  match v with
  | Value.num a => q < a
  | _ => false

/-- `v < q` with JavaScript semantics on cell values. -/
def vLtQ (v : Value) (q : ℚ) : Bool :=
  match v with
  | Value.num a => a < q
  | _ => false

/-- The threshold 0.5 of the significance predicate, as the exact rational
one half (written as a raw fraction so that concrete comparisons reduce in
the kernel). -/
def qHalf : ℚ := ⟨1, 2, by decide, by decide⟩

/-- The threshold 0.05 of the significance predicate, as the exact rational
one twentieth. -/
def qTwentieth : ℚ := ⟨1, 20, by decide, by decide⟩

/-- The significance predicate of `summarizeData` (lines 230-234):
`Math.abs(row[fcCol] || 0) > 0.5 && (row[pCol] || 1) < 0.05`.  Note the
JavaScript `||`: any falsy present value (0 or NaN), not only a missing one,
falls back to the default. -/
def isSignificant (cols : Columns) (r : Row) : Bool :=
  vGtQ (vAbs (jsOr (getCol r cols.foldChange) (Value.num 0))) qHalf &&
    vLtQ (jsOr (getCol r cols.pValue) (Value.num 1)) qTwentieth

/-- Modelled from the spec: the significance predicate as the claim C6 words
it, where only a MISSING effect size is treated as 0 and only a MISSING
significance is treated as 1 (a present numeric value, zero included, is
used as is).  This is the comparison point for the refinement claim; the
source predicate is `isSignificant`. -/
def claimSignificant (cols : Columns) (r : Row) : Bool :=
  let fc : ℚ :=
    match getCol r cols.foldChange with
    | some (Value.num q) => q
    | _ => 0
  let p : ℚ :=
    match getCol r cols.pValue with
    | some (Value.num q) => q
    | _ => 1
  decide (|fc| > qHalf) && decide (p < qTwentieth)

/-- `row[fcCol] > 0` on the raw cell (the increased filter); a missing cell
is `undefined`, which compares like NaN. -/
def fcPositive (cols : Columns) (r : Row) : Bool :=
  vGtQ (match getCol r cols.foldChange with | some v => v | none => Value.nan) 0

/-- `row[fcCol] < 0` on the raw cell (the decreased filter). -/
def fcNegative (cols : Columns) (r : Row) : Bool :=
  vLtQ (match getCol r cols.foldChange with | some v => v | none => Value.nan) 0

/-- The effect-size measurement used to state sortedness of the top lists:
the numeric fold-change cell of a row (rows in the top lists always have
one). -/
def fcQ (cols : Columns) (r : Row) : ℚ :=
  match getCol r cols.foldChange with
  | some (Value.num q) => q
  | _ => 0

/-- Insertion of one element into a sorted list under a boolean "may come
before" test: the embedding of the comparator-driven `Array.prototype.sort`
(the comparator `(a, b) => b[fcCol] - a[fcCol]` sorts descending; the
comparator `(a, b) => a[fcCol] - b[fcCol]` sorts ascending). -/
def insertIn (le : Row → Row → Bool) (x : Row) : List Row → List Row
  | [] => [x]
  | y :: ys => if le x y then x :: y :: ys else y :: insertIn le x ys

/-- A comparator-consistent stable sort, the embedding of `sort`. -/
def sortRows (le : Row → Row → Bool) : List Row → List Row
  | [] => []
  | x :: xs => insertIn le x (sortRows le xs)

/-- The summary computed by `summarizeData`. -/
structure Summary where
  total : Nat
  significant : Nat
  increased : Nat
  decreased : Nat
  topIncreased : List Row
  topDecreased : List Row
  columns : Columns

/-- `summarizeData` (lines 223-251): null on an empty row set; otherwise the
four counts, and the top-ten lists sorted descending (increased) and
ascending (decreased) by fold change. -/
def summarizeData (data : List Row) (columns : Columns) : Option Summary :=
  if data.isEmpty then none
  else
    let significant := data.filter (isSignificant columns)
    let increased := significant.filter (fcPositive columns)
    let decreased := significant.filter (fcNegative columns)
    let topIncreased := (sortRows (fun a b => fcQ columns b ≤ fcQ columns a) increased).take 10
    let topDecreased := (sortRows (fun a b => fcQ columns a ≤ fcQ columns b) decreased).take 10
    some
      { total := data.length
        significant := significant.length
        increased := increased.length
        decreased := decreased.length
        topIncreased := topIncreased
        topDecreased := topDecreased
        columns := columns }

/-- The significant-row filter of `buildContext` (lines 354-357), textually
the same predicate as the summarizer's, applied in original row order and
capped at 50 rows. -/
def buildContextSignificantRows (data : List Row) (cols : Columns) : List Row :=
  (data.filter (fun row =>
    vGtQ (vAbs (jsOr (getCol row cols.foldChange) (Value.num 0))) qHalf &&
      vLtQ (jsOr (getCol row cols.pValue) (Value.num 1)) qTwentieth)).take 50

/-- JavaScript truthiness of a parsed JSON value (`if (parsed)`): null and
false are falsy, a number is falsy exactly when its value is zero, a string
when empty; arrays and objects are always truthy. -/
def numLexIsZero (s : String) : Bool :=
  (s.data.filter isDigitC).all (fun c => c = '0') && (s.data.any isDigitC)

/-- Truthiness of a `Json` value. -/
def jsonTruthy : Json → Bool
  | Json.null => false
  | Json.bool b => b
  | Json.num lx => !numLexIsZero lx
  | Json.str s => s ≠ ""
  | Json.arr _ => true
  | Json.obj _ => true

/-- `parsed && parsed.length > 0` for the hypothesis workflow: truthy with a
positive `length` property.  Only arrays and strings have a numeric
`length`; for every other value the comparison `undefined > 0` is false. -/
def jsonHasPosLength : Json → Bool
  | Json.arr xs => !xs.isEmpty
  | Json.str s => s ≠ ""
  | _ => false

/-- Field read on a parsed object (`hyp.title`); `none` is `undefined`. -/
def objField (j : Json) (k : String) : Option Json :=
  match j with
  | Json.obj kvs => List.lookup k kvs
  | _ => none

/-- The object literal of the experimental-design success path: a
`hypothesis` key holding the hypothesis title, then the spread of the parsed
protocol.  A `hypothesis` key inside the parsed object would overwrite the
first entry (keeping first position, last value), per JavaScript object
literal semantics; an `undefined` title is stored as null here (no claim
reads it back). -/
def withHypTitle (hyp : Json) (p : Json) : Json :=
  let t := (objField hyp "title").getD Json.null
  match p with
  | Json.obj kvs =>
    Json.obj (("hypothesis", (List.lookup "hypothesis" kvs).getD t) ::
      kvs.filter (fun kv => kv.1 ≠ "hypothesis"))
  | _ => Json.obj [("hypothesis", t)]

/-- Outcome of the HTTP call to the completion capability, the opaque
external collaborator: the response text, or a transport error message. -/
inductive ApiResult where
  | ok : String → ApiResult
  | err : String → ApiResult

/-- The session state owned by the component: the three result slots, the
credential, the hypothesis-type selection, the error banner, the loading
flags and the active tab.  Prompt construction is elided: the response is
the free parameter of each workflow, so the prompt text cannot influence the
state transition. -/
structure AppState where
  apiKey : String
  selectedType : Option String
  hypotheses : Option Json
  experimentalDesign : Option Json
  literatureAnalysis : Option Json
  error : Option String
  loadingHyp : Bool
  loadingExp : Bool
  loadingLit : Bool
  activeTab : String

/-- `callClaudeAPI` (lines 363-392): throws when the credential is missing,
otherwise surfaces the transport outcome. -/
def callClaudeAPI (apiKey : String) (resp : ApiResult) : ApiResult :=
  if apiKey = "" then ApiResult.err "Please enter your Anthropic API key"
  else resp

/-- `generateHypotheses` (lines 395-445): a missing type selection is a
no-op; otherwise the loading flag is raised, the error banner and the
hypotheses slot are cleared, the call outcome is extracted with array shape,
and the slot is set only when the parsed value is a non-empty array (any
failure sets the error banner instead); the loading flag is lowered last. -/
def generateHypotheses (st : AppState) (resp : ApiResult) : AppState :=
  match st.selectedType with
  | none => st
  | some _ =>
    let st1 := { st with loadingHyp := true, error := none, hypotheses := none }
    let st2 :=
      match callClaudeAPI st1.apiKey resp with
      | ApiResult.err m => { st1 with error := some m }
      | ApiResult.ok text =>
        match parseJSONSafely text true with
        | some parsed =>
          if jsonTruthy parsed && jsonHasPosLength parsed then
            { st1 with hypotheses := some parsed, activeTab := "results" }
          else
            { st1 with error := some "Could not parse hypotheses from response. Try reducing Max Tokens in Settings." }
        | none =>
          { st1 with error := some "Could not parse hypotheses from response. Try reducing Max Tokens in Settings." }
    { st2 with loadingHyp := false }

/-- `generateExperimentalDesign` (lines 448-510): raises the loading flag
and clears the error banner, extracts the call outcome with object shape,
and replaces the experimental-design slot only when the parsed value is
truthy (any failure sets the error banner and leaves the slot as it was);
the loading flag is lowered last. -/
def generateExperimentalDesign (st : AppState) (hyp : Json) (resp : ApiResult) : AppState :=
  let st1 := { st with loadingExp := true, error := none }
  let st2 :=
    match callClaudeAPI st1.apiKey resp with
    | ApiResult.err m => { st1 with error := some m }
    | ApiResult.ok text =>
      match parseJSONSafely text false with
      | some parsed =>
        if jsonTruthy parsed then
          { st1 with experimentalDesign := some (withHypTitle hyp parsed) }
        else
          { st1 with error := some "Could not parse experimental design. Try reducing Max Tokens in Settings." }
      | none =>
        { st1 with error := some "Could not parse experimental design. Try reducing Max Tokens in Settings." }
  { st2 with loadingExp := false }

/-- `generateLiteratureAnalysis` (lines 513-563): raises the loading flag
and clears the error banner, extracts the call outcome with object shape,
and replaces the literature-analysis slot only when the parsed value is
truthy (any failure sets the error banner and leaves the slot as it was);
the loading flag is lowered last. -/
def generateLiteratureAnalysis (st : AppState) (resp : ApiResult) : AppState :=
  let st1 := { st with loadingLit := true, error := none }
  let st2 :=
    match callClaudeAPI st1.apiKey resp with
    | ApiResult.err m => { st1 with error := some m }
    | ApiResult.ok text =>
      match parseJSONSafely text false with
      | some parsed =>
        if jsonTruthy parsed then
          { st1 with literatureAnalysis := some parsed }
        else
          { st1 with error := some "Could not parse literature analysis. Try reducing Max Tokens in Settings." }
      | none =>
        { st1 with error := some "Could not parse literature analysis. Try reducing Max Tokens in Settings." }
  { st2 with loadingLit := false }

/-- The value the hypothesis workflow would commit for a given state and
call outcome: the parsed non-empty array on full success, `none` on any
failure.  Used to state that the slot is replaced exactly by this. -/
def hypothesesOutcome (st : AppState) (resp : ApiResult) : Option Json :=
  match callClaudeAPI st.apiKey resp with
  | ApiResult.err _ => none
  | ApiResult.ok text =>
    match parseJSONSafely text true with
    | some parsed => if jsonTruthy parsed && jsonHasPosLength parsed then some parsed else none
    | none => none

/-- The parsed value the object-shaped workflows commit on full success. -/
def objectOutcome (st : AppState) (resp : ApiResult) : Option Json :=
  match callClaudeAPI st.apiKey resp with
  | ApiResult.err _ => none
  | ApiResult.ok text =>
    match parseJSONSafely text false with
    | some parsed => if jsonTruthy parsed then some parsed else none
    | none => none

/-- `splitOnChar` never returns an empty list of fields. -/
theorem splitOnChar_ne_nil (sep : Char) (cs : List Char) : splitOnChar sep cs ≠ [] := by
  cases cs with
  | nil => simp [splitOnChar]
  | cons c cs =>
    cases h : splitOnChar sep cs with
    | nil => simp [splitOnChar, h]
    | cons g gs =>
      by_cases hc : c = sep <;> simp [splitOnChar, h, hc]

/-- C1: on the raw text holding two complete objects (ranks 1 and 2) and a
third truncated mid-string, extract with array shape returns exactly the two
complete objects, discarding the incomplete third element. -/
theorem c1_truncated_third_element_discarded :
    parseJSONSafely ("[\x7b\"rank\":1,\"title\":\"A\"\x7d,\x7b\"rank\":2,\"title\":\"B\"\x7d,\x7b\"rank\":3,\"title\":\"C") true =
      some (Json.arr
        [Json.obj [("rank", Json.num "1"), ("title", Json.str "A")],
         Json.obj [("rank", Json.num "2"), ("title", Json.str "B")]]) := by
  rfl

/-- C2 counterexample: on the raw text of Scenario B, extract with array
shape does NOT return null: it returns the one-element array holding the
object with rank 1 and title X, because the bracket counter closes the open
brace and bracket and the repaired text parses. -/
theorem c2_counterexample_not_null :
    parseJSONSafely ("Here is the result: [\x7b\"rank\":1,\"title\":\"X\"") true =
      some (Json.arr [Json.obj [("rank", Json.num "1"), ("title", Json.str "X")]]) := by
  rfl

/-- C2 amended: on the Scenario B text the extractor does not throw and does
not return null either: the truncation-repair strategy (strategy 2, the
closing-delimiter insertion) already succeeds and salvages the single
complete object, which the extractor returns. -/
theorem c2_amended_repair_salvages_object :
    strategyRepair ("Here is the result: [\x7b\"rank\":1,\"title\":\"X\"") true =
        some (Json.arr [Json.obj [("rank", Json.num "1"), ("title", Json.str "X")]]) ∧
      parseJSONSafely ("Here is the result: [\x7b\"rank\":1,\"title\":\"X\"") true =
        strategyRepair ("Here is the result: [\x7b\"rank\":1,\"title\":\"X\"") true := by
  constructor
  · rfl
  · rfl

/-- C4 counterexample: the well-formed array text between brackets parses
strictly to the two-element array, yet when it is embedded in prose whose
tail holds one stray closing bracket, extract returns null instead of that
value: the greedy direct match spans to the stray bracket and fails, and no
repair strategy recovers. -/
theorem c4_counterexample_stray_bracket :
    parseJson "[1,2]" = some (Json.arr [Json.num "1", Json.num "2"]) ∧
      parseJSONSafely "ok: [1,2] ]" true = none := by
  constructor
  · rfl
  · rfl

/-- C5 counterexample: the valid array text of two elements parses strictly;
truncating it at byte offset 5 — strictly after the end of its first
complete element, which ends at offset 2 — leaves a text on which extract
with array shape returns null, not a non-null prefix of the elements. -/
theorem c5_counterexample_mid_element_truncation :
    parseJson "[1,true]" = some (Json.arr [Json.num "1", Json.bool true]) ∧
      ("[1,true]").data.take 5 = ("[1,tr").data ∧
      parseJSONSafely "[1,tr" true = none := by
  refine ⟨by rfl, by rfl, by rfl⟩

/-- C8 counterexample: on empty input `parseCSV` does not fail at all: it
returns the headers/rows pair of one empty-string header and no rows (the
source has no FormatError path; `split` never produces zero lines or zero
columns). -/
theorem c8_counterexample_empty_input_returns :
    parseCSV "" = ([""], []) := by
  rfl

/-- C8 amended: `parseCSV` never fails: on every input it returns a
headers/rows pair with at least one (possibly empty-named) header column,
and on empty input specifically it returns a single empty header and an
empty row list. -/
theorem c8_amended_parseCSV_total :
    (∀ text : String, 1 ≤ (parseCSV text).1.length) ∧ parseCSV "" = ([""], []) := by
  refine ⟨fun text => ?_, by rfl⟩
  have h := splitOnChar_ne_nil ',' ((splitOnChar '\n' (jsTrim text).data).headD [])
  unfold parseCSV
  simp only [List.length_map]
  exact Nat.one_le_iff_ne_zero.mpr (fun hz => h (List.eq_nil_of_length_eq_zero (by simpa [List.headD] using hz)))


/-- The effect-size half of the source predicate holds exactly for a present
numeric fold change of absolute value strictly above one half: every falsy
present value (0 or NaN) coalesces to the default 0 through the JavaScript
or-default and fails the strict comparison, and string cells compare like
NaN. -/
theorem fcHalf_iff (v : Option Value) :
    vGtQ (vAbs (jsOr v (Value.num 0))) qHalf = true ↔
      ∃ q : ℚ, v = some (Value.num q) ∧ qHalf < |q| := by
  have h0 : (0 : ℚ) ≤ qHalf := by decide
  cases v with
  | none => simp [jsOr, vAbs, vGtQ, h0]
  | some w =>
    cases w with
    | num q =>
      by_cases hq : q = 0
      · subst hq
        simp [jsOr, vTruthy, vAbs, vGtQ, h0]
      · constructor
        · intro h
          refine ⟨q, rfl, ?_⟩
          simpa [jsOr, vTruthy, hq, vAbs, vGtQ] using h
        · rintro ⟨x, hx, h⟩
          injection hx with hx2
          injection hx2 with hx3
          subst hx3
          simpa [jsOr, vTruthy, hq, vAbs, vGtQ] using h
    | str s =>
      by_cases hs : s = "" <;>
        simp [jsOr, vTruthy, hs, vAbs, vGtQ, h0]
    | nan => simp [jsOr, vTruthy, vAbs, vGtQ, h0]

/-- The significance half of the source predicate holds exactly for a
present, nonzero numeric p-value strictly below one twentieth: a present
zero is falsy, coalesces to the default 1, and fails. -/
theorem pTwentieth_iff (v : Option Value) :
    vLtQ (jsOr v (Value.num 1)) qTwentieth = true ↔
      ∃ p : ℚ, v = some (Value.num p) ∧ p ≠ 0 ∧ p < qTwentieth := by
  have hone : ¬ ((1 : ℚ) < qTwentieth) := by decide
  cases v with
  | none => simp [jsOr, vLtQ, hone]
  | some w =>
    cases w with
    | num q =>
      by_cases hq : q = 0
      · subst hq
        simp [jsOr, vTruthy, vLtQ, hone]
      · constructor
        · intro h
          refine ⟨q, rfl, hq, ?_⟩
          simpa [jsOr, vTruthy, hq, vLtQ] using h
        · rintro ⟨x, hx, hne, h⟩
          injection hx with hx2
          injection hx2 with hx3
          subst hx3
          simpa [jsOr, vTruthy, hq, vLtQ] using h
    | str s =>
      by_cases hs : s = "" <;>
        simp [jsOr, vTruthy, hs, vLtQ, hone]
    | nan => simp [jsOr, vTruthy, vLtQ, hone]

/-- Characterization of the full significance predicate of `summarizeData`
in terms of the raw cells. -/
theorem isSignificant_iff (cols : Columns) (r : Row) :
    isSignificant cols r = true ↔
      (∃ q : ℚ, getCol r cols.foldChange = some (Value.num q) ∧ qHalf < |q|) ∧
        (∃ p : ℚ, getCol r cols.pValue = some (Value.num p) ∧ p ≠ 0 ∧ p < qTwentieth) := by
  unfold isSignificant
  rw [Bool.and_eq_true, fcHalf_iff, pTwentieth_iff]

/-- C6 counterexample: a row whose significance cell holds the number 0 and
whose effect-size cell holds 1 is significant under the claim's reading of
the predicate (0 is a present value and 0 < 0.05), but the source does not
count it: the JavaScript or-default coalesces the falsy present 0 to the
default 1, so the claimed iff fails at this row. -/
theorem c6_counterexample_zero_pvalue :
    isSignificant ⟨none, some "fc", some "p", none⟩
        [("fc", some (Value.num 1)), ("p", some (Value.num 0))] = false ∧
      claimSignificant ⟨none, some "fc", some "p", none⟩
        [("fc", some (Value.num 1)), ("p", some (Value.num 0))] = true := by
  constructor
  · decide
  · decide

/-- C6 amended: a row is counted significant exactly when its effect-size
cell is a present numeric value with absolute value strictly above 0.5 AND
its significance cell is a present NONZERO numeric value strictly below
0.05; missing cells coalesce to the defaults 0 and 1 as claimed, but so does
every falsy present value (0 or NaN).  In particular a row with effect size
exactly 0.5 or significance exactly 0.05 is not significant (both
inequalities strict), as the claim states. -/
theorem c6_amended_significance_iff (cols : Columns) (r : Row) :
    isSignificant cols r = true ↔
      (∃ q : ℚ, getCol r cols.foldChange = some (Value.num q) ∧ qHalf < |q|) ∧
        (∃ p : ℚ, getCol r cols.pValue = some (Value.num p) ∧ p ≠ 0 ∧ p < qTwentieth) :=
  isSignificant_iff cols r

/-- C10: a present numeric 0 in the significance column is treated like a
missing one — it is coalesced to the default 1 by the or-default — so such a
row is never counted significant by `summarizeData`'s predicate, even when
the effect size is large, and is likewise excluded from the significant-row
block built by `buildContext`; the same holds for a present 0 in the
effect-size column (which coincides with the default 0). -/
theorem c10_zero_cells_never_significant (cols : Columns) (r : Row)
    (h : getCol r cols.pValue = some (Value.num 0) ∨
      getCol r cols.foldChange = some (Value.num 0)) :
    isSignificant cols r = false ∧
      ∀ data : List Row, r ∉ buildContextSignificantRows data cols := by
  have hsig : isSignificant cols r = false := by
    rcases Bool.eq_false_or_eq_true (isSignificant cols r) with ht | hf
    · exfalso
      rcases (isSignificant_iff cols r).mp ht with ⟨⟨q, hqv, hq⟩, ⟨p, hpv, hpne, hplt⟩⟩
      cases h with
      | inl hp =>
        rw [hp] at hpv
        injection hpv with h2
        injection h2 with h3
        exact hpne h3.symm
      | inr hfc =>
        rw [hfc] at hqv
        injection hqv with h2
        injection h2 with h3
        rw [← h3] at hq
        simp at hq
        exact absurd hq (by decide)
    · exact hf
  refine ⟨hsig, fun data hmem => ?_⟩
  have hmem2 := List.mem_of_mem_take hmem
  have hpred : isSignificant cols r = true := List.of_mem_filter hmem2
  rw [hsig] at hpred
  cases hpred

/-- C10 witness: the row with effect size 7 and significance exactly 0 is
not significant and never appears in the context builder's significant
block. -/
theorem c10_witness :
    (getCol [("fc", some (Value.num 7)), ("p", some (Value.num 0))]
          (Columns.pValue ⟨none, some "fc", some "p", none⟩) = some (Value.num 0) ∨
        getCol [("fc", some (Value.num 7)), ("p", some (Value.num 0))]
          (Columns.foldChange ⟨none, some "fc", some "p", none⟩) = some (Value.num 0)) ∧
      (isSignificant ⟨none, some "fc", some "p", none⟩
          [("fc", some (Value.num 7)), ("p", some (Value.num 0))] = false ∧
        ∀ data : List Row,
          [("fc", some (Value.num 7)), ("p", some (Value.num 0))] ∉
            buildContextSignificantRows data ⟨none, some "fc", some "p", none⟩) :=
  ⟨Or.inl (by decide),
    c10_zero_cells_never_significant ⟨none, some "fc", some "p", none⟩
      [("fc", some (Value.num 7)), ("p", some (Value.num 0))] (Or.inl (by decide))⟩

/-- C3: the extractor is a total function of its input (it is defined by
structural recursion, so it terminates on every string and throws nothing),
and it returns null exactly when none of the four recovery strategies —
direct greedy match, truncation repair, last-complete-element fallback
(array shape only), per-element salvage (array shape only) — yields a
parseable structure. -/
theorem c3_null_iff_no_strategy_salvages (text : String) (isArray : Bool) :
    parseJSONSafely text isArray = none ↔
      (strategyDirect text isArray = none ∧ strategyRepair text isArray = none ∧
        strategyLastElement text isArray = none ∧ strategySalvage text isArray = none) := by
  by_cases htext : text = ""
  · subst htext
    have hd : ∀ o : Char, dropBefore o (("" : String).data) = none := fun o => rfl
    constructor
    · intro _
      refine ⟨?_, ?_, ?_, ?_⟩ <;>
        simp [strategyDirect, strategyRepair, strategyLastElement, strategySalvage,
          jsMatchGreedy, jsMatchToEnd, repairedOf, hd]
    · intro _
      rfl
  · unfold parseJSONSafely strategyDirect strategyRepair strategyLastElement strategySalvage
    simp only [htext, if_false]
    cases h1 : (jsMatchGreedy (if isArray then '[' else '{') (if isArray then ']' else '}') text.data).bind parseJsonL with
    | some v => simp [h1]
    | none =>
      simp only [h1]
      cases h2 : repairedOf isArray text.data with
      | none => simp [h2]
      | some j2 =>
        simp only [h2]
        cases h3 : parseJsonL j2 with
        | some v => simp [h3]
        | none =>
          simp only [h3]
          cases isArray with
          | false => simp [h3]
          | true =>
            simp only [if_true]
            cases h4 : (lastCompleteCut j2).bind parseJsonL with
            | some v => simp [h4, h3]
            | none =>
              simp only [h4]
              by_cases h5 : (salvageObjects j2).isEmpty <;>
                simp [h5, h3, h4]

/-- C9 counterexample: the hypothesis workflow clears its own stored result
at the start of the invocation (`setHypotheses(null)` before the call), so
after a transport error the slot is null, NOT the previously stored result:
the stored result of the triggering workflow is changed by a failed
invocation. -/
theorem c9_counterexample_hypotheses_slot_cleared :
    (generateHypotheses
        ⟨"k", some "mechanisms", some (Json.str "old"), none, none, none, false, false, false, "generate"⟩
        (ApiResult.err "network down")).hypotheses = none ∧
      (⟨"k", some "mechanisms", some (Json.str "old"), none, none, none, false, false, false,
          "generate"⟩ : AppState).hypotheses = some (Json.str "old") := by
  constructor
  · rfl
  · rfl

/-- C9 amended: no workflow ever touches another workflow's stored result.
The experimental-design and literature-analysis workflows replace their own
slot only on full success of call-and-extract and leave it unchanged on any
error; the hypothesis workflow instead clears its slot on entry, so its slot
afterwards holds exactly the successful outcome, or null after any failure
(never the previous result), unless the missing-type guard made the whole
invocation a no-op. -/
theorem c9_amended_slot_dynamics (st : AppState) (hyp : Json) (resp : ApiResult) :
    (generateHypotheses st resp).experimentalDesign = st.experimentalDesign ∧
      (generateHypotheses st resp).literatureAnalysis = st.literatureAnalysis ∧
      (generateHypotheses st resp).hypotheses =
        (match st.selectedType with
          | none => st.hypotheses
          | some _ => hypothesesOutcome st resp) ∧
      (generateExperimentalDesign st hyp resp).hypotheses = st.hypotheses ∧
      (generateExperimentalDesign st hyp resp).literatureAnalysis = st.literatureAnalysis ∧
      (generateExperimentalDesign st hyp resp).experimentalDesign =
        (match objectOutcome st resp with
          | some p => some (withHypTitle hyp p)
          | none => st.experimentalDesign) ∧
      (generateLiteratureAnalysis st resp).hypotheses = st.hypotheses ∧
      (generateLiteratureAnalysis st resp).experimentalDesign = st.experimentalDesign ∧
      (generateLiteratureAnalysis st resp).literatureAnalysis =
        (match objectOutcome st resp with
          | some p => some p
          | none => st.literatureAnalysis) := by
  unfold generateHypotheses generateExperimentalDesign generateLiteratureAnalysis
    hypothesesOutcome objectOutcome
  cases hsel : st.selectedType with
  | none =>
    simp only [hsel]
    cases hc : callClaudeAPI st.apiKey resp with
    | err m => simp
    | ok t =>
      cases hp : parseJSONSafely t false with
      | none => simp [hc, hp]
      | some parsed =>
        by_cases ht : jsonTruthy parsed = true <;> simp [hc, hp, ht]
  | some sel =>
    simp only [hsel]
    cases hc : callClaudeAPI st.apiKey resp with
    | err m => simp [hc]
    | ok t =>
      cases hp : parseJSONSafely t true with
      | none =>
        cases hp2 : parseJSONSafely t false with
        | none => simp [hc, hp, hp2]
        | some parsed2 =>
          by_cases ht2 : jsonTruthy parsed2 = true <;> simp [hc, hp, hp2, ht2]
      | some parsed =>
        cases hp2 : parseJSONSafely t false with
        | none =>
          by_cases ht : (jsonTruthy parsed && jsonHasPosLength parsed) = true <;>
            simp [hc, hp, hp2, ht]
        | some parsed2 =>
          by_cases ht : (jsonTruthy parsed && jsonHasPosLength parsed) = true <;>
            by_cases ht2 : jsonTruthy parsed2 = true <;>
              simp [hc, hp, hp2, ht, ht2]

/-- Membership in the insertion step of the sort embedding. -/
theorem mem_insertIn (le : Row → Row → Bool) (x a : Row) (l : List Row) :
    a ∈ insertIn le x l ↔ a = x ∨ a ∈ l := by
  induction l with
  | nil => simp [insertIn]
  | cons y ys ih =>
    unfold insertIn
    by_cases h : le x y = true
    · rw [if_pos h]
      simp [List.mem_cons]
    · rw [if_neg h]
      simp only [List.mem_cons, ih]
      tauto

/-- Inserting into a sorted list under a total transitive boolean comparator
keeps it sorted. -/
theorem pairwise_insertIn (le : Row → Row → Bool)
    (htot : ∀ a b, le a b = true ∨ le b a = true)
    (htrans : ∀ a b c, le a b = true → le b c = true → le a c = true)
    (x : Row) (l : List Row) (hl : l.Pairwise (fun a b => le a b = true)) :
    (insertIn le x l).Pairwise (fun a b => le a b = true) := by
  induction l with
  | nil => simp [insertIn]
  | cons y ys ih =>
    rcases List.pairwise_cons.mp hl with ⟨hy, hys⟩
    by_cases h : le x y = true
    · simp only [insertIn, h, if_true]
      refine List.pairwise_cons.mpr ⟨?_, hl⟩
      intro b hb
      rcases List.mem_cons.mp hb with hb1 | hb2
      · subst hb1; exact h
      · exact htrans x y b h (hy b hb2)
    · simp only [insertIn, h, if_false]
      refine List.pairwise_cons.mpr ⟨?_, ih hys⟩
      intro b hb
      rcases (mem_insertIn le x b ys).mp hb with hb1 | hb2
      · rw [hb1]
        rcases htot x y with h1 | h1
        · exact absurd h1 h
        · exact h1
      · exact hy b hb2

/-- The sort embedding always produces a comparator-sorted list. -/
theorem pairwise_sortRows (le : Row → Row → Bool)
    (htot : ∀ a b, le a b = true ∨ le b a = true)
    (htrans : ∀ a b c, le a b = true → le b c = true → le a c = true)
    (l : List Row) :
    (sortRows le l).Pairwise (fun a b => le a b = true) := by
  induction l with
  | nil => simp [sortRows]
  | cons x xs ih => exact pairwise_insertIn le htot htrans x (sortRows le xs) ih

/-- Two complementary filters of one list split its length. -/
theorem length_filter_partition (l : List Row) (p q : Row → Bool)
    (h : ∀ x ∈ l, q x = !p x) :
    (l.filter p).length + (l.filter q).length = l.length := by
  induction l with
  | nil => simp
  | cons x xs ih =>
    have hx := h x (List.mem_cons_self x xs)
    have ihx := ih (fun y hy => h y (List.mem_cons_of_mem x hy))
    by_cases hp : p x = true
    · simp [List.filter, hp, hx] at *
      omega
    · have hp2 : p x = false := Bool.eq_false_iff.mpr hp
      simp [List.filter, hp2, hx] at *
      omega

/-- C7: every summary produced by `summarizeData` (it produces one exactly
for non-empty row sets) satisfies increased + decreased = significant and
significant is at most total; its top-increased list is sorted non-increasing
by effect size, its top-decreased list non-decreasing, and both lists have at
most ten rows. -/
theorem c7_summary_invariants (rows : List Row) (cols : Columns) (s : Summary)
    (hs : summarizeData rows cols = some s) :
    s.increased + s.decreased = s.significant ∧
      s.significant ≤ s.total ∧
      s.topIncreased.Pairwise (fun a b => fcQ cols b ≤ fcQ cols a) ∧
      s.topDecreased.Pairwise (fun a b => fcQ cols a ≤ fcQ cols b) ∧
      s.topIncreased.length ≤ 10 ∧ s.topDecreased.length ≤ 10 := by
  unfold summarizeData at hs
  by_cases hempty : rows.isEmpty
  · rw [if_pos hempty] at hs
    cases hs
  · rw [if_neg hempty] at hs
    have hs2 := (Option.some.injEq _ _).mp hs
    subst hs2
    refine ⟨?_, ?_, ?_, ?_, ?_, ?_⟩
    · refine length_filter_partition _ _ _ (fun r hr => ?_)
      have hsig : isSignificant cols r = true := List.of_mem_filter hr
      rcases (isSignificant_iff cols r).mp hsig with ⟨⟨q, hqv, hq⟩, -⟩
      have hq0 : q ≠ 0 := by
        intro h0
        rw [h0] at hq
        simp at hq
        exact absurd hq (by decide)
      unfold fcNegative fcPositive
      rw [hqv]
      unfold vGtQ vLtQ
      rcases lt_trichotomy q 0 with h1 | h1 | h1
      · simp [h1, not_lt_of_lt h1, le_of_lt h1]
      · exact absurd h1 hq0
      · simp [h1, not_lt_of_lt h1]
    · exact List.length_filter_le _ _
    · have hp := pairwise_sortRows (fun a b => decide (fcQ cols b ≤ fcQ cols a))
        (fun a b => by
          rcases le_total (fcQ cols b) (fcQ cols a) with h | h
          · exact Or.inl (decide_eq_true h)
          · exact Or.inr (decide_eq_true h))
        (fun a b c hab hbc => decide_eq_true (le_trans (of_decide_eq_true hbc) (of_decide_eq_true hab)))
        (List.filter (fcPositive cols) (List.filter (isSignificant cols) rows))
      have hp2 := hp.sublist (List.take_sublist 10 _)
      exact hp2.imp (fun h => of_decide_eq_true h)
    · have hp := pairwise_sortRows (fun a b => decide (fcQ cols a ≤ fcQ cols b))
        (fun a b => by
          rcases le_total (fcQ cols a) (fcQ cols b) with h | h
          · exact Or.inl (decide_eq_true h)
          · exact Or.inr (decide_eq_true h))
        (fun a b c hab hbc => decide_eq_true (le_trans (of_decide_eq_true hab) (of_decide_eq_true hbc)))
        (List.filter (fcNegative cols) (List.filter (isSignificant cols) rows))
      have hp2 := hp.sublist (List.take_sublist 10 _)
      exact hp2.imp (fun h => of_decide_eq_true h)
    · simp [List.length_take]
    · simp [List.length_take]

/-- C7 witness: the invariants instantiated on a concrete one-row data set
whose single row is significant and increased. -/
theorem c7_witness :
    summarizeData
        [[("fc", some (Value.num 2)), ("p", some (Value.num ⟨1, 100, by decide, by decide⟩))]]
        ⟨none, some "fc", some "p", none⟩ =
      some
        ⟨1, 1, 1, 0,
          [[("fc", some (Value.num 2)), ("p", some (Value.num ⟨1, 100, by decide, by decide⟩))]],
          [], ⟨none, some "fc", some "p", none⟩⟩ ∧
      ((⟨1, 1, 1, 0,
          [[("fc", some (Value.num 2)), ("p", some (Value.num ⟨1, 100, by decide, by decide⟩))]],
          [], ⟨none, some "fc", some "p", none⟩⟩ : Summary).increased +
          (⟨1, 1, 1, 0,
            [[("fc", some (Value.num 2)), ("p", some (Value.num ⟨1, 100, by decide, by decide⟩))]],
            [], ⟨none, some "fc", some "p", none⟩⟩ : Summary).decreased =
          (⟨1, 1, 1, 0,
            [[("fc", some (Value.num 2)), ("p", some (Value.num ⟨1, 100, by decide, by decide⟩))]],
            [], ⟨none, some "fc", some "p", none⟩⟩ : Summary).significant ∧
        (⟨1, 1, 1, 0,
          [[("fc", some (Value.num 2)), ("p", some (Value.num ⟨1, 100, by decide, by decide⟩))]],
          [], ⟨none, some "fc", some "p", none⟩⟩ : Summary).significant ≤
          (⟨1, 1, 1, 0,
            [[("fc", some (Value.num 2)), ("p", some (Value.num ⟨1, 100, by decide, by decide⟩))]],
            [], ⟨none, some "fc", some "p", none⟩⟩ : Summary).total ∧
        (⟨1, 1, 1, 0,
          [[("fc", some (Value.num 2)), ("p", some (Value.num ⟨1, 100, by decide, by decide⟩))]],
          [], ⟨none, some "fc", some "p", none⟩⟩ : Summary).topIncreased.Pairwise
          (fun a b =>
            fcQ ⟨none, some "fc", some "p", none⟩ b ≤ fcQ ⟨none, some "fc", some "p", none⟩ a) ∧
        (⟨1, 1, 1, 0,
          [[("fc", some (Value.num 2)), ("p", some (Value.num ⟨1, 100, by decide, by decide⟩))]],
          [], ⟨none, some "fc", some "p", none⟩⟩ : Summary).topDecreased.Pairwise
          (fun a b =>
            fcQ ⟨none, some "fc", some "p", none⟩ a ≤ fcQ ⟨none, some "fc", some "p", none⟩ b) ∧
        (⟨1, 1, 1, 0,
          [[("fc", some (Value.num 2)), ("p", some (Value.num ⟨1, 100, by decide, by decide⟩))]],
          [], ⟨none, some "fc", some "p", none⟩⟩ : Summary).topIncreased.length ≤ 10 ∧
        (⟨1, 1, 1, 0,
          [[("fc", some (Value.num 2)), ("p", some (Value.num ⟨1, 100, by decide, by decide⟩))]],
          [], ⟨none, some "fc", some "p", none⟩⟩ : Summary).topDecreased.length ≤ 10) :=
  ⟨by rfl,
    c7_summary_invariants
      [[("fc", some (Value.num 2)), ("p", some (Value.num ⟨1, 100, by decide, by decide⟩))]]
      ⟨none, some "fc", some "p", none⟩
      ⟨1, 1, 1, 0,
        [[("fc", some (Value.num 2)), ("p", some (Value.num ⟨1, 100, by decide, by decide⟩))]],
        [], ⟨none, some "fc", some "p", none⟩⟩
      (by rfl)⟩

/-- When the prefix holds no opening bracket, the first-opening-bracket scan
skips it. -/
theorem dropBefore_append_left (o : Char) (xs ys : List Char) (h : ∀ c ∈ xs, c ≠ o) :
    dropBefore o (xs ++ ys) = dropBefore o ys := by
  induction xs with
  | nil => rfl
  | cons x xs ih =>
    have hx : x ≠ o := h x (List.mem_cons_self x xs)
    simp only [List.cons_append, dropBefore, if_neg hx]
    exact ih (fun c hc => h c (List.mem_cons_of_mem x hc))

/-- The last-closing-bracket scan fails on text without one. -/
theorem takeThroughLast_eq_none (cl : Char) (l : List Char) (h : ∀ c ∈ l, c ≠ cl) :
    takeThroughLast cl l = none := by
  induction l with
  | nil => rfl
  | cons x xs ih =>
    have hx : x ≠ cl := h x (List.mem_cons_self x xs)
    simp only [takeThroughLast, ih (fun c hc => h c (List.mem_cons_of_mem x hc)), if_neg hx]

/-- A suffix without the closing bracket does not move the last-closing
cut. -/
theorem takeThroughLast_append_right (cl : Char) (xs ys : List Char)
    (h : ∀ c ∈ ys, c ≠ cl) :
    takeThroughLast cl (xs ++ ys) = takeThroughLast cl xs := by
  induction xs with
  | nil => simp [takeThroughLast_eq_none cl ys h, takeThroughLast]
  | cons x xs ih =>
    simp only [List.cons_append, takeThroughLast, List.append_eq, ih]

/-- A text ending in the closing bracket is kept whole by the
last-closing-bracket cut. -/
theorem takeThroughLast_of_getLast (cl : Char) (l : List Char)
    (h : l.getLast? = some cl) :
    takeThroughLast cl l = some l := by
  induction l with
  | nil => cases h
  | cons x xs ih =>
    cases xs with
    | nil =>
      simp only [List.getLast?_singleton, Option.some.injEq] at h
      simp [takeThroughLast, h]
    | cons y ys =>
      have h2 : (y :: ys).getLast? = some cl := by
        rw [← h, List.getLast?_cons_cons]
      rw [takeThroughLast, ih h2]

/-- C4 amended: for every well-formed JSON text of the requested shape
(opening with the shape's opening bracket and closing with its closing
bracket), embedded in prose whose leading part holds no opening bracket of
that kind and whose trailing part holds no closing bracket of that kind,
extract on the whole text returns exactly the value of strict-parsing the
embedded JSON: the greedy direct match finds precisely the embedded text.
(The restriction on the prose is forced by the counterexample: one stray
closing bracket after the JSON makes the greedy match overshoot and extract
return null.) -/
theorem c4_amended_embedded_json_roundtrip (pre j post : String) (v : Json) (isArray : Bool)
    (hpre : ∀ c ∈ pre.data, c ≠ (if isArray then '[' else '{'))
    (hpost : ∀ c ∈ post.data, c ≠ (if isArray then ']' else '}'))
    (hhead : j.data.head? = some (if isArray then '[' else '{'))
    (hlast : j.data.getLast? = some (if isArray then ']' else '}'))
    (hv : parseJson j = some v) :
    parseJSONSafely (pre ++ j ++ post) isArray = some v := by
  have hocl : (if isArray then '[' else '{') ≠ (if isArray then ']' else '}') := by
    cases isArray <;> decide
  obtain ⟨mid, hmid⟩ : ∃ mid, j.data = (if isArray then '[' else '{') :: mid := by
    cases hjd : j.data with
    | nil => rw [hjd] at hhead; cases hhead
    | cons c m =>
      rw [hjd] at hhead
      simp only [List.head?_cons, Option.some.injEq] at hhead
      exact ⟨m, by rw [hhead]⟩
  have hmidne : mid ≠ [] := by
    intro hnil
    rw [hmid, hnil] at hlast
    simp only [List.getLast?_singleton, Option.some.injEq] at hlast
    exact hocl hlast
  have hmidlast : mid.getLast? = some (if isArray then ']' else '}') := by
    rw [hmid] at hlast
    rwa [show (if isArray then '[' else '{') :: mid = [if isArray then '[' else '{'] ++ mid from rfl,
      List.getLast?_append_of_ne_nil _ hmidne] at hlast
  have hdata : (pre ++ j ++ post).data = pre.data ++ (j.data ++ post.data) := by
    simp [String.data_append, List.append_assoc]
  have htext : (pre ++ j ++ post) ≠ "" := by
    intro he
    have hd0 : (pre ++ j ++ post).data = [] := by rw [he]
    rw [hdata, hmid] at hd0
    simp at hd0
  have hmatch : jsMatchGreedy (if isArray then '[' else '{') (if isArray then ']' else '}')
      (pre ++ j ++ post).data = some j.data := by
    unfold jsMatchGreedy
    rw [hdata, dropBefore_append_left _ _ _ hpre, hmid]
    have hdb : dropBefore (if isArray then '[' else '{')
        ((if isArray then '[' else '{') :: (mid ++ post.data)) =
          some ((if isArray then '[' else '{') :: (mid ++ post.data)) := by
      simp [dropBefore]
    simp only [List.cons_append]
    rw [hdb]
    change
      (match takeThroughLast (if isArray then ']' else '}') (mid ++ post.data) with
        | some r => some ((if isArray then '[' else '{') :: r)
        | none => none) =
        some ((if isArray then '[' else '{') :: mid)
    rw [takeThroughLast_append_right _ mid post.data hpost,
      takeThroughLast_of_getLast _ mid hmidlast]
  unfold parseJSONSafely
  rw [if_neg htext, hmatch]
  have hb : (some j.data).bind parseJsonL = some v := hv
  rw [hb]

/-- C4 witness: the array [1,2] embedded in bracket-free prose round-trips
through the extractor. -/
theorem c4_amended_witness :
    (∀ c ∈ ("Result: ").data, c ≠ '[') ∧
      parseJson "[1,2]" = some (Json.arr [Json.num "1", Json.num "2"]) ∧
      parseJSONSafely ("Result: " ++ "[1,2]" ++ " end.") true =
        some (Json.arr [Json.num "1", Json.num "2"]) :=
  ⟨by decide, by rfl,
    c4_amended_embedded_json_roundtrip ("Result: ") ("[1,2]") (" end.")
      (Json.arr [Json.num "1", Json.num "2"]) true
      (by decide) (by decide) (by decide) (by decide) (by rfl)⟩

/-- Character facts for the integer-token alphabet: commas, minus signs and
digits are not whitespace, and are distinct from every structural character
the extractor or parser dispatches on. -/
theorem tokchar_facts (c : Char) (h : c = ',' ∨ c = '-' ∨ isDigitC c = true) :
    isJsonWs c = false ∧ isRegexWs c = false ∧ c ≠ '"' ∧ c ≠ '\\' ∧ c ≠ '[' ∧ c ≠ ']' ∧
      c ≠ '{' ∧ c ≠ '}' ∧ c ≠ '.' ∧ c ≠ 'e' ∧ c ≠ 'E' ∧
      c ≠ 't' ∧ c ≠ 'f' ∧ c ≠ 'n' := by
  rcases h with h | h | h
  · subst h; refine ⟨rfl, rfl, ?_, ?_, ?_, ?_, ?_, ?_, ?_, ?_, ?_, ?_, ?_, ?_⟩ <;> decide
  · subst h; refine ⟨rfl, rfl, ?_, ?_, ?_, ?_, ?_, ?_, ?_, ?_, ?_, ?_, ?_, ?_⟩ <;> decide
  · have hne : ∀ d : Char, isDigitC d = false → c ≠ d := by
      intro d hd he
      rw [he, hd] at h
      cases h
    have hws : isJsonWs c = false := by
      cases hw : isJsonWs c
      · rfl
      · exfalso
        simp only [isJsonWs, Bool.or_eq_true, decide_eq_true_eq] at hw
        rcases hw with ((h1 | h1) | h1) | h1 <;> rw [h1] at h <;> exact absurd h (by decide)
    have hrws : isRegexWs c = false := by
      cases hw : isRegexWs c
      · rfl
      · exfalso
        simp only [isRegexWs, Bool.or_eq_true, decide_eq_true_eq] at hw
        rcases hw with (((((h1 | h1) | h1) | h1) | h1) | h1) | h1 <;>
          rw [h1] at h <;> exact absurd h (by decide)
    exact ⟨hws, hrws, hne _ (by decide), hne _ (by decide), hne _ (by decide), hne _ (by decide),
      hne _ (by decide), hne _ (by decide), hne _ (by decide), hne _ (by decide), hne _ (by decide),
      hne _ (by decide), hne _ (by decide), hne _ (by decide)⟩

/-- All characters of an unsigned integer token are digits. -/
theorem intPartTok_chars (r : List Char) (h : intPartTok r = true) :
    ∀ c ∈ r, isDigitC c = true := by
  cases r with
  | nil => cases h
  | cons c rest =>
    rw [show intPartTok (c :: rest) =
      (if c = '0' then rest.isEmpty else isDigitC c && rest.all isDigitC) from rfl] at h
    by_cases hc : c = '0'
    · rw [if_pos hc] at h
      have : rest = [] := by simpa [List.isEmpty_iff] using h
      subst this
      intro x hx
      rcases List.mem_singleton.mp hx with rfl
      rw [hc]; decide
    · rw [if_neg hc, Bool.and_eq_true] at h
      intro x hx
      rcases List.mem_cons.mp hx with rfl | hx2
      · exact h.1
      · exact List.all_eq_true.mp h.2 x hx2

/-- All characters of a signed integer token are the minus sign or digits. -/
theorem intTok_chars (t : List Char) (h : intTokOK t = true) :
    ∀ c ∈ t, c = '-' ∨ isDigitC c = true := by
  cases t with
  | nil => cases h
  | cons c rest =>
    rw [show intTokOK (c :: rest) =
      (if c = '-' then intPartTok rest else intPartTok (c :: rest)) from rfl] at h
    by_cases hc : c = '-'
    · rw [if_pos hc] at h
      intro x hx
      rcases List.mem_cons.mp hx with rfl | hx2
      · exact Or.inl hc
      · exact Or.inr (intPartTok_chars rest h x hx2)
    · rw [if_neg hc] at h
      intro x hx
      exact Or.inr (intPartTok_chars (c :: rest) h x hx)

/-- An unsigned integer token is non-empty. -/
theorem intPartTok_ne_nil (r : List Char) (h : intPartTok r = true) : r ≠ [] := by
  cases r with
  | nil => cases h
  | cons c rest => exact List.cons_ne_nil c rest

/-- An unsigned integer token ends in a digit. -/
theorem intPart_getLast_digit (r : List Char) (h : intPartTok r = true) :
    ∃ d, r.getLast? = some d ∧ isDigitC d = true := by
  have hne := intPartTok_ne_nil r h
  obtain ⟨d, hd⟩ := Option.isSome_iff_exists.mp (List.getLast?_isSome.mpr hne)
  refine ⟨d, hd, ?_⟩
  have hmem : d ∈ r.getLast? := hd ▸ rfl
  rcases List.mem_getLast?_eq_getLast hmem with ⟨h2, h3⟩
  exact intPartTok_chars r h d (h3 ▸ List.getLast_mem h2)

/-- A signed integer token ends in a digit. -/
theorem intTok_getLast_digit (t : List Char) (h : intTokOK t = true) :
    ∃ d, t.getLast? = some d ∧ isDigitC d = true := by
  cases t with
  | nil => cases h
  | cons c rest =>
    rw [show intTokOK (c :: rest) =
      (if c = '-' then intPartTok rest else intPartTok (c :: rest)) from rfl] at h
    by_cases hc : c = '-'
    · rw [if_pos hc] at h
      obtain ⟨d, hd, hdig⟩ := intPart_getLast_digit rest h
      refine ⟨d, ?_, hdig⟩
      have hne := intPartTok_ne_nil rest h
      rw [show c :: rest = [c] ++ rest from rfl, List.getLast?_append_of_ne_nil [c] hne]
      exact hd
    · rw [if_neg hc] at h
      exact intPart_getLast_digit (c :: rest) h

/-- The comma-join of a non-empty token list is non-empty. -/
theorem joinToks_ne_nil (ts : List (List Char)) (hne : ts ≠ [])
    (h : ∀ t ∈ ts, intTokOK t = true) : joinToksC ts ≠ [] := by
  cases ts with
  | nil => exact absurd rfl hne
  | cons t ts2 =>
    cases ts2 with
    | nil =>
      have := intPartTok_ne_nil
      have ht := h t (List.mem_cons_self t [])
      cases t with
      | nil => cases ht
      | cons c r => exact List.cons_ne_nil c r
    | cons t1 ts3 =>
      have ht := h t (List.mem_cons_self t _)
      cases t with
      | nil => cases ht
      | cons c r => simp [joinToksC]

/-- The comma-join of integer tokens contains only commas, minus signs and
digits. -/
theorem joinToks_chars (ts : List (List Char)) (h : ∀ t ∈ ts, intTokOK t = true) :
    ∀ c ∈ joinToksC ts, c = ',' ∨ c = '-' ∨ isDigitC c = true := by
  induction ts with
  | nil => intro c hc; cases hc
  | cons t ts2 ih =>
    cases ts2 with
    | nil =>
      intro c hc
      exact Or.inr (intTok_chars t (h t (List.mem_cons_self t _)) c hc)
    | cons t1 ts3 =>
      intro c hc
      rw [show joinToksC (t :: t1 :: ts3) = t ++ ',' :: joinToksC (t1 :: ts3) from rfl] at hc
      rcases List.mem_append.mp hc with hc1 | hc2
      · exact Or.inr (intTok_chars t (h t (List.mem_cons_self t _)) c hc1)
      · rcases List.mem_cons.mp hc2 with rfl | hc3
        · exact Or.inl rfl
        · exact ih (fun u hu => h u (List.mem_cons_of_mem t hu)) c hc3

/-- The comma-join of integer tokens ends in a digit. -/
theorem joinToks_getLast_digit (ts : List (List Char)) (hne : ts ≠ [])
    (h : ∀ t ∈ ts, intTokOK t = true) :
    ∃ d, (joinToksC ts).getLast? = some d ∧ isDigitC d = true := by
  induction ts with
  | nil => exact absurd rfl hne
  | cons t ts2 ih =>
    cases ts2 with
    | nil => exact intTok_getLast_digit t (h t (List.mem_cons_self t _))
    | cons t1 ts3 =>
      obtain ⟨d, hd, hdig⟩ :=
        ih (List.cons_ne_nil t1 ts3) (fun u hu => h u (List.mem_cons_of_mem t hu))
      refine ⟨d, ?_, hdig⟩
      rw [show joinToksC (t :: t1 :: ts3) = t ++ ',' :: joinToksC (t1 :: ts3) from rfl,
        List.getLast?_append_of_ne_nil t (List.cons_ne_nil ',' _),
        show ',' :: joinToksC (t1 :: ts3) = [','] ++ joinToksC (t1 :: ts3) from rfl,
        List.getLast?_append_of_ne_nil [','] (joinToks_ne_nil _ (List.cons_ne_nil t1 ts3)
          (fun u hu => h u (List.mem_cons_of_mem t hu)))]
      exact hd

/-- A non-empty suffix has the same last element as the whole list. -/
theorem suffix_getLast (ds cs : List Char) (hsuf : ds <:+ cs) (hne : ds ≠ []) :
    ds.getLast? = cs.getLast? := by
  obtain ⟨pre, hpre⟩ := hsuf
  rw [← hpre, List.getLast?_append_of_ne_nil pre hne]

/-- An end-anchored replace whose pattern matches no suffix keeps the text
unchanged. -/
theorem trimSuffix_eq_self (m : List Char → Bool) (cs : List Char)
    (h : ∀ ds : List Char, ds <:+ cs → m ds = false) :
    trimSuffix m cs = cs := by
  induction cs with
  | nil => rfl
  | cons c cs2 ih =>
    rw [show trimSuffix m (c :: cs2) =
      (if m (c :: cs2) then [] else c :: trimSuffix m cs2) from rfl]
    rw [h (c :: cs2) List.suffix_rfl]
    rw [if_neg (by simp)]
    rw [ih (fun ds hds => h ds (hds.trans (List.suffix_cons c cs2)))]

/-- dropWhile is the identity when no element satisfies the predicate. -/
theorem dropWhile_all_false (p : Char → Bool) (l : List Char)
    (h : ∀ c ∈ l, p c = false) : l.dropWhile p = l := by
  cases l with
  | nil => rfl
  | cons a l2 =>
    rw [List.dropWhile_cons, if_neg (by simp [h a (List.mem_cons_self a l2)])]

/-- The characters of a truncated integer-array text are not regex
whitespace, quotes or opening braces. -/
theorem textchar_facts (c : Char)
    (h : c = '[' ∨ c = ',' ∨ c = '-' ∨ isDigitC c = true) :
    isRegexWs c = false ∧ c ≠ '"' ∧ c ≠ '{' := by
  rcases h with h | h
  · subst h
    exact ⟨rfl, by decide, by decide⟩
  · obtain ⟨-, h2, h3, -, -, -, h7, -⟩ := tokchar_facts c h
    exact ⟨h2, h3, h7⟩

/-- The four quote-seeking trim patterns never match a suffix free of
quotes and whitespace. -/
theorem tmquote_false (ds : List Char)
    (hd : ∀ c ∈ ds, isRegexWs c = false ∧ c ≠ '"') :
    tm1 ds = false ∧ tm2 ds = false ∧ tm3 ds = false ∧ tm4 ds = false := by
  cases ds with
  | nil => exact ⟨rfl, rfl, rfl, rfl⟩
  | cons c cs2 =>
    by_cases hc : c = ','
    · have hdw : cs2.dropWhile isRegexWs = cs2 :=
        dropWhile_all_false _ _ (fun x hx => (hd x (List.mem_cons_of_mem c hx)).1)
      have hu : ∀ b : Bool, ((c :: cs2 : List Char).head? = some ',' &&
          (((c :: cs2 : List Char).tail.dropWhile isRegexWs).head? = some '"' && b)) = false := by
        intro b
        simp only [List.head?_cons, List.tail_cons, hdw]
        cases cs2 with
        | nil => simp
        | cons a cs3 =>
          have ha := (hd a (List.mem_cons_of_mem c (List.mem_cons_self a cs3))).2
          simp [ha]
      exact ⟨hu _, hu _, hu _, hu _⟩
    · have hh : ((c :: cs2 : List Char).head? = some ',') = False := by
        simp [hc]
      unfold tm1 tm2 tm3 tm4
      rw [List.head?_cons]
      simp [hc]

/-- The incomplete-nested-object trim pattern never matches a suffix free
of opening braces and whitespace. -/
theorem tm6_false (ds : List Char)
    (hd : ∀ c ∈ ds, isRegexWs c = false ∧ c ≠ '{') :
    tm6 ds = false := by
  cases ds with
  | nil => rfl
  | cons c cs2 =>
    by_cases hc : c = ','
    · have hdw : cs2.dropWhile isRegexWs = cs2 :=
        dropWhile_all_false _ _ (fun x hx => (hd x (List.mem_cons_of_mem c hx)).1)
      unfold tm6
      simp only [List.head?_cons, List.tail_cons, hdw]
      cases cs2 with
      | nil => simp
      | cons a cs3 =>
        have ha := (hd a (List.mem_cons_of_mem c (List.mem_cons_self a cs3))).2
        simp [ha]
    · unfold tm6
      simp [hc]

/-- The trailing-comma trim pattern never matches a suffix of a text that
does not end in a comma or whitespace. -/
theorem tm5_false (ds : List Char)
    (hws : ∀ c ∈ ds, isRegexWs c = false)
    (hlast : ds.getLast? ≠ some ',') :
    tm5 ds = false := by
  cases ds with
  | nil => rfl
  | cons c cs2 =>
    by_cases hc : c = ','
    · have hdw : cs2.dropWhile isRegexWs = cs2 :=
        dropWhile_all_false _ _ (fun x hx => hws x (List.mem_cons_of_mem c hx))
      unfold tm5
      simp only [List.head?_cons, List.tail_cons, hdw]
      cases cs2 with
      | nil =>
        exfalso
        apply hlast
        rw [hc]
        rfl
      | cons a cs3 => simp
    · unfold tm5
      simp [hc]

/-- On a truncated integer-array text, all six trailing-garbage trims are
no-ops. -/
theorem trimAll_self (cs : List Char)
    (hclass : ∀ c ∈ cs, c = '[' ∨ c = ',' ∨ c = '-' ∨ isDigitC c = true)
    (hlast : ∃ d, cs.getLast? = some d ∧ isDigitC d = true) :
    trimAll cs = cs := by
  obtain ⟨d, hld, hdig⟩ := hlast
  have hsub : ∀ ds : List Char, ds <:+ cs → ∀ c ∈ ds, c = '[' ∨ c = ',' ∨ c = '-' ∨ isDigitC c = true :=
    fun ds hds c hc => hclass c (hds.sublist.subset hc)
  have hq : ∀ ds : List Char, ds <:+ cs → tm1 ds = false ∧ tm2 ds = false ∧ tm3 ds = false ∧ tm4 ds = false :=
    fun ds hds => tmquote_false ds (fun c hc =>
      ⟨(textchar_facts c (hsub ds hds c hc)).1, (textchar_facts c (hsub ds hds c hc)).2.1⟩)
  have h6 : ∀ ds : List Char, ds <:+ cs → tm6 ds = false :=
    fun ds hds => tm6_false ds (fun c hc =>
      ⟨(textchar_facts c (hsub ds hds c hc)).1, (textchar_facts c (hsub ds hds c hc)).2.2⟩)
  have h5 : ∀ ds : List Char, ds <:+ cs → tm5 ds = false := by
    intro ds hds
    refine tm5_false ds (fun c hc => (textchar_facts c (hsub ds hds c hc)).1) ?_
    cases hdsn : ds with
    | nil => simp
    | cons a as =>
      rw [← hdsn, suffix_getLast ds cs hds (by rw [hdsn]; exact List.cons_ne_nil a as), hld]
      intro hcon
      rw [Option.some.injEq] at hcon
      rw [hcon] at hdig
      exact absurd hdig (by decide)
  unfold trimAll
  rw [trimSuffix_eq_self tm1 cs (fun ds hds => (hq ds hds).1),
    trimSuffix_eq_self tm2 cs (fun ds hds => (hq ds hds).2.1),
    trimSuffix_eq_self tm3 cs (fun ds hds => (hq ds hds).2.2.1),
    trimSuffix_eq_self tm4 cs (fun ds hds => (hq ds hds).2.2.2),
    trimSuffix_eq_self tm5 cs h5,
    trimSuffix_eq_self tm6 cs h6]

/-- The bracket counter ignores text without quotes, backslashes, brackets
or braces. -/
theorem countLoop_no_special (cs : List Char)
    (h : ∀ c ∈ cs, c ≠ '\\' ∧ c ≠ '"' ∧ c ≠ '[' ∧ c ≠ ']' ∧ c ≠ '{' ∧ c ≠ '}') :
    ∀ (inStr : Bool) (bk br : Int), countLoop cs false inStr bk br = (bk, br) := by
  induction cs with
  | nil => intro inStr bk br; rfl
  | cons c cs2 ih =>
    intro inStr bk br
    obtain ⟨h1, h2, h3, h4, h5, h6⟩ := h c (List.mem_cons_self c cs2)
    have ih2 := ih (fun x hx => h x (List.mem_cons_of_mem c hx))
    rw [show countLoop (c :: cs2) false inStr bk br =
      (if (false : Bool) then countLoop cs2 false inStr bk br
      else if c = '\\' then countLoop cs2 true inStr bk br
      else if c = '"' then countLoop cs2 false (!inStr) bk br
      else if inStr then countLoop cs2 false inStr bk br
      else if c = '[' then countLoop cs2 false inStr (bk + 1) br
      else if c = ']' then countLoop cs2 false inStr (bk - 1) br
      else if c = '{' then countLoop cs2 false inStr bk (br + 1)
      else if c = '}' then countLoop cs2 false inStr bk (br - 1)
      else countLoop cs2 false inStr bk br) from rfl]
    rw [if_neg (by simp), if_neg h1, if_neg h2]
    cases inStr with
    | true => rw [if_pos rfl]; exact ih2 true bk br
    | false =>
      rw [if_neg (by simp), if_neg h3, if_neg h4, if_neg h5, if_neg h6]
      exact ih2 false bk br

/-- On a truncated integer-array text the counter finds exactly one open
bracket, so the repair appends a single closing bracket. -/
theorem closeOpen_bracket (jn : List Char)
    (hclass : ∀ c ∈ jn, c = ',' ∨ c = '-' ∨ isDigitC c = true) :
    closeOpen ('[' :: jn) = '[' :: jn ++ [']'] := by
  have hcount : countLoop ('[' :: jn) false false 0 0 = (1, 0) := by
    rw [show countLoop ('[' :: jn) false false 0 0 = countLoop jn false false 1 0 from rfl]
    refine countLoop_no_special jn (fun c hc => ?_) false 1 0
    obtain ⟨-, -, hq, hbs, hlb, hrb, hlc, hrc, -, -, -, -, -, -⟩ :=
      tokchar_facts c (hclass c hc)
    exact ⟨hbs, hq, hlb, hrb, hlc, hrc⟩
  unfold closeOpen
  rw [hcount]
  simp

/-- takeWhile runs through a fully-satisfying prefix. -/
theorem takeWhile_all_append (p : Char → Bool) (xs ys : List Char)
    (h : ∀ x ∈ xs, p x = true) :
    (xs ++ ys).takeWhile p = xs ++ ys.takeWhile p := by
  induction xs with
  | nil => rfl
  | cons a xs2 ih =>
    rw [List.cons_append, List.takeWhile_cons, if_pos (h a (List.mem_cons_self a xs2)),
      ih (fun x hx => h x (List.mem_cons_of_mem a hx)), List.cons_append]

/-- dropWhile runs through a fully-satisfying prefix. -/
theorem dropWhile_all_append (p : Char → Bool) (xs ys : List Char)
    (h : ∀ x ∈ xs, p x = true) :
    (xs ++ ys).dropWhile p = ys.dropWhile p := by
  induction xs with
  | nil => rfl
  | cons a xs2 ih =>
    rw [List.cons_append, List.dropWhile_cons, if_pos (h a (List.mem_cons_self a xs2)),
      ih (fun x hx => h x (List.mem_cons_of_mem a hx))]

/-- The character after a complete array element (a comma or a closing
bracket) stops the number lexer. -/
theorem restHead_facts (rest : List Char)
    (hrest : rest.head? = some ',' ∨ rest.head? = some ']') :
    ∃ r0 rest2, rest = r0 :: rest2 ∧ isDigitC r0 = false ∧ r0 ≠ '.' ∧
      r0 ≠ 'e' ∧ r0 ≠ 'E' ∧ isJsonWs r0 = false := by
  cases rest with
  | nil => rcases hrest with h | h <;> cases h
  | cons r0 rest2 =>
    rcases hrest with h | h <;>
      simp only [List.head?_cons, Option.some.injEq] at h <;>
      subst h <;>
      exact ⟨_, rest2, rfl, by decide, by decide, by decide, by decide, by decide⟩

/-- The unsigned number lexer consumes exactly an integer token when a
separator follows. -/
theorem lexNumCore_int (r rest : List Char) (h : intPartTok r = true)
    (hrest : rest.head? = some ',' ∨ rest.head? = some ']') :
    lexNumCore (r ++ rest) = some (r, rest) := by
  obtain ⟨r0, rest2, hr, hdig0, hdot, he, hE, -⟩ := restHead_facts rest hrest
  have hip : lexIntPart (r ++ rest) = some (r, rest) := by
    cases r with
    | nil => cases h
    | cons c tr =>
      rw [show intPartTok (c :: tr) =
        (if c = '0' then tr.isEmpty else isDigitC c && tr.all isDigitC) from rfl] at h
      by_cases hc : c = '0'
      · rw [if_pos hc] at h
        have : tr = [] := by simpa [List.isEmpty_iff] using h
        subst this
        subst hc
        rw [show (['0'] : List Char) ++ rest = '0' :: rest from rfl]
        rw [show lexIntPart ('0' :: rest) =
          (if '0' = '0' then some (['0'], rest)
           else if isDigitC '0' then
            some ('0' :: rest.takeWhile isDigitC, rest.dropWhile isDigitC)
           else none) from rfl]
        rw [if_pos rfl]
      · rw [if_neg hc, Bool.and_eq_true] at h
        rw [show (c :: tr) ++ rest = c :: (tr ++ rest) from rfl]
        rw [show lexIntPart (c :: (tr ++ rest)) =
          (if c = '0' then some (['0'], tr ++ rest)
           else if isDigitC c then
            some (c :: (tr ++ rest).takeWhile isDigitC, (tr ++ rest).dropWhile isDigitC)
           else none) from rfl]
        rw [if_neg hc, if_pos h.1]
        have hall := List.all_eq_true.mp h.2
        rw [takeWhile_all_append _ _ _ hall, dropWhile_all_append _ _ _ hall]
        rw [hr, List.takeWhile_cons, if_neg (by simp [hdig0]),
          List.dropWhile_cons, if_neg (by simp [hdig0])]
        simp
  have hfrac : lexFracPart rest = some ([], rest) := by
    rw [hr]
    rw [show lexFracPart (r0 :: rest2) =
      (if r0 = '.' then
        match rest2.takeWhile isDigitC with
        | [] => none
        | ds => some ('.' :: ds, rest2.dropWhile isDigitC)
       else some ([], r0 :: rest2)) from rfl]
    rw [if_neg hdot]
  have hexp : lexExpPart rest = some ([], rest) := by
    rw [hr]
    rw [show lexExpPart (r0 :: rest2) =
      (if r0 = 'e' || r0 = 'E' then
        match rest2 with
        | s :: rest3 =>
          if s = '+' || s = '-' then
            match rest3.takeWhile isDigitC with
            | [] => none
            | ds => some (r0 :: s :: ds, rest3.dropWhile isDigitC)
          else
            match rest2.takeWhile isDigitC with
            | [] => none
            | ds => some (r0 :: ds, rest2.dropWhile isDigitC)
        | [] => none
       else some ([], r0 :: rest2)) from rfl]
    rw [if_neg (by simp [he, hE])]
  unfold lexNumCore
  rw [hip]
  simp only [hfrac, hexp]
  simp

/-- The value parser consumes exactly an integer token when a separator
follows, yielding the number with that lexeme. -/
theorem parseCore_val_int (fuel : Nat) (t rest : List Char)
    (ht : intTokOK t = true)
    (hrest : rest.head? = some ',' ∨ rest.head? = some ']') :
    parseCore (fuel + 1) PMode.val (t ++ rest) = some (Json.num (String.mk t), rest) := by
  cases t with
  | nil => cases ht
  | cons c tr =>
    have hhead : c = '-' ∨ isDigitC c = true :=
      intTok_chars (c :: tr) ht c (List.mem_cons_self c tr)
    obtain ⟨hws, -, hq, -, hlb, -, hlc, -, -, -, -, hT, hF, hN⟩ := tokchar_facts c (Or.inr hhead)
    rw [show intTokOK (c :: tr) =
      (if c = '-' then intPartTok tr else intPartTok (c :: tr)) from rfl] at ht
    have hlex : lexNumber (c :: (tr ++ rest)) = some (c :: tr, rest) := by
      rw [show lexNumber (c :: (tr ++ rest)) =
        (if c = '-' then (lexNumCore (tr ++ rest)).map (fun p => ('-' :: p.1, p.2))
         else lexNumCore (c :: (tr ++ rest))) from rfl]
      by_cases hc : c = '-'
      · rw [if_pos hc]
        rw [if_pos hc] at ht
        rw [lexNumCore_int tr rest ht hrest, hc]
        rfl
      · rw [if_neg hc]
        rw [if_neg hc] at ht
        rw [show c :: (tr ++ rest) = (c :: tr) ++ rest from rfl]
        rw [lexNumCore_int (c :: tr) rest ht hrest]
    have hdw : (c :: (tr ++ rest)).dropWhile isJsonWs = c :: (tr ++ rest) := by
      rw [List.dropWhile_cons, if_neg (by simp [hws])]
    rw [show (c :: tr) ++ rest = c :: (tr ++ rest) from rfl]
    simp only [parseCore, hdw]
    rw [if_neg hlc, if_neg hlb, if_neg hq, if_neg hT, if_neg hF, if_neg hN, hlex]

/-- One unfolding step of the array-items loop. -/
theorem parseCore_items_eq (f : Nat) (acc : List Json) (cs : List Char) :
    parseCore (f + 1) (PMode.items acc) cs =
      (match parseCore f PMode.val cs with
        | none => none
        | some (v, rest) =>
          match rest.dropWhile isJsonWs with
          | ',' :: r2 => parseCore f (PMode.items (acc ++ [v])) r2
          | ']' :: r2 => some (Json.arr (acc ++ [v]), r2)
          | _ => none) := rfl

/-- The array-items loop parses a comma-join of integer tokens terminated
by a closing bracket into exactly those numbers, given linear fuel. -/
theorem parseCore_items_join (ts : List (List Char)) :
    ∀ (t0 : List Char) (acc : List Json) (fuel : Nat),
      (∀ t ∈ t0 :: ts, intTokOK t = true) →
      2 * ts.length + 2 ≤ fuel →
      parseCore fuel (PMode.items acc) (joinToksC (t0 :: ts) ++ [']']) =
        some (Json.arr (acc ++ (t0 :: ts).map (fun t => Json.num (String.mk t))), []) := by
  induction ts with
  | nil =>
    intro t0 acc fuel h hf
    obtain ⟨f, rfl⟩ : ∃ f, fuel = f + 1 := ⟨fuel - 1, by omega⟩
    rw [show joinToksC [t0] = t0 from rfl]
    obtain ⟨f2, rfl⟩ : ∃ f2, f = f2 + 1 := ⟨f - 1, by omega⟩
    rw [parseCore_items_eq]
    rw [parseCore_val_int f2 t0 [']'] (h t0 (List.mem_cons_self t0 [])) (Or.inr rfl)]
    simp [show List.dropWhile isJsonWs [']'] = [']'] from rfl]
  | cons t1 ts2 ih =>
    intro t0 acc fuel h hf
    obtain ⟨f, rfl⟩ : ∃ f, fuel = f + 1 := ⟨fuel - 1, by omega⟩
    rw [show joinToksC (t0 :: t1 :: ts2) = t0 ++ ',' :: joinToksC (t1 :: ts2) from rfl,
      List.append_assoc,
      show (',' :: joinToksC (t1 :: ts2)) ++ [']'] = ',' :: (joinToksC (t1 :: ts2) ++ [']'])
        from rfl]
    obtain ⟨f2, rfl⟩ : ∃ f2, f = f2 + 1 := ⟨f - 1, by omega⟩
    rw [parseCore_items_eq]
    rw [parseCore_val_int f2 t0 (',' :: (joinToksC (t1 :: ts2) ++ [']']))
      (h t0 (List.mem_cons_self t0 _)) (Or.inl rfl)]
    have hih := ih t1 (acc ++ [Json.num (String.mk t0)]) (f2 + 1)
      (fun t htm => h t (List.mem_cons_of_mem t0 htm)) (by simp at hf ⊢; omega)
    simp only [List.dropWhile_cons]
    simp only [show isJsonWs ',' = false from rfl, Bool.false_eq_true, if_false]
    simp only [hih]
    simp [List.map_cons, List.append_assoc]

/-- The comma-join is at least as long as the number of following
tokens. -/
theorem joinToks_len (t0 : List Char) (ts : List (List Char)) :
    ts.length ≤ (joinToksC (t0 :: ts)).length := by
  induction ts generalizing t0 with
  | nil => simp
  | cons t1 ts2 ih =>
    rw [show joinToksC (t0 :: t1 :: ts2) = t0 ++ ',' :: joinToksC (t1 :: ts2) from rfl]
    have := ih t1
    simp only [List.length_append, List.length_cons]
    omega

theorem parseCore_val_eq (f : Nat) (cs : List Char) :
    parseCore (f + 1) PMode.val cs =
      (match cs.dropWhile isJsonWs with
        | [] => none
        | c :: rest =>
          if c = '{' then
            if (rest.dropWhile isJsonWs).head? = some '}' then
              some (Json.obj [], (rest.dropWhile isJsonWs).tail)
            else parseCore f (PMode.members []) (rest.dropWhile isJsonWs)
          else if c = '[' then
            if (rest.dropWhile isJsonWs).head? = some ']' then
              some (Json.arr [], (rest.dropWhile isJsonWs).tail)
            else parseCore f (PMode.items []) (rest.dropWhile isJsonWs)
          else if c = '"' then
            match lexStrBody rest with
            | some (s, r) => some (Json.str (String.mk s), r)
            | none => none
          else if c = 't' then
            match rest with
            | 'r' :: 'u' :: 'e' :: r2 => some (Json.bool true, r2)
            | _ => none
          else if c = 'f' then
            match rest with
            | 'a' :: 'l' :: 's' :: 'e' :: r2 => some (Json.bool false, r2)
            | _ => none
          else if c = 'n' then
            match rest with
            | 'u' :: 'l' :: 'l' :: r2 => some (Json.null, r2)
            | _ => none
          else
            match lexNumber (c :: rest) with
            | some (lx, r) => some (Json.num (String.mk lx), r)
            | none => none) := rfl

/-- One unfolding step of the value parser on an opening bracket. -/
theorem parseCore_val_bracket (f : Nat) (rest : List Char) :
    parseCore (f + 1) PMode.val ('[' :: rest) =
      (if (rest.dropWhile isJsonWs).head? = some ']' then
        some (Json.arr [], (rest.dropWhile isJsonWs).tail)
      else parseCore f (PMode.items []) (rest.dropWhile isJsonWs)) := rfl

/-- Strict parse of a repaired truncated integer array succeeds and yields
exactly the kept elements. -/
theorem parseJsonL_arrayPrefix (ts : List (List Char)) (hne : ts ≠ [])
    (h : ∀ t ∈ ts, intTokOK t = true) :
    parseJsonL (arrayPrefixText ts ++ [']']) =
      some (Json.arr (ts.map (fun t => Json.num (String.mk t)))) := by
  cases ts with
  | nil => exact absurd rfl hne
  | cons t0 ts2 =>
    obtain ⟨c, tr, ht0⟩ : ∃ c tr, t0 = c :: tr := by
      have ht := h t0 (List.mem_cons_self t0 ts2)
      cases t0 with
      | nil => cases ht
      | cons c tr => exact ⟨c, tr, rfl⟩
    have hjoin : ∃ jrest, joinToksC (t0 :: ts2) = c :: jrest := by
      cases ts2 with
      | nil => exact ⟨tr, by rw [show joinToksC [t0] = t0 from rfl, ht0]⟩
      | cons t1 ts3 =>
        refine ⟨tr ++ ',' :: joinToksC (t1 :: ts3), ?_⟩
        rw [show joinToksC (t0 :: t1 :: ts3) = t0 ++ ',' :: joinToksC (t1 :: ts3) from rfl, ht0]
        rfl
    obtain ⟨jrest, hjr⟩ := hjoin
    have hcfacts : c = '-' ∨ isDigitC c = true :=
      intTok_chars t0 (h t0 (List.mem_cons_self t0 ts2)) c (ht0 ▸ List.mem_cons_self c tr)
    obtain ⟨hws, -, -, -, -, hrb, -, -, -, -, -, -, -, -⟩ := tokchar_facts c (Or.inr hcfacts)
    unfold parseJsonL
    obtain ⟨F, hF, hFbig⟩ : ∃ F, 2 * (arrayPrefixText (t0 :: ts2) ++ [']']).length + 2 = F + 1 ∧
        2 * ts2.length + 2 ≤ F := by
      refine ⟨2 * (arrayPrefixText (t0 :: ts2) ++ [']']).length + 1, rfl, ?_⟩
      have hlen := joinToks_len t0 ts2
      simp only [arrayPrefixText, List.length_append, List.length_cons]
      omega
    rw [hF]
    rw [show arrayPrefixText (t0 :: ts2) ++ [']'] = '[' :: (joinToksC (t0 :: ts2) ++ [']'])
      from rfl]
    rw [parseCore_val_bracket]
    have hdw2 : (joinToksC (t0 :: ts2) ++ [']']).dropWhile isJsonWs =
        joinToksC (t0 :: ts2) ++ [']'] := by
      rw [hjr, List.cons_append, List.dropWhile_cons, if_neg (by simp [hws])]
    rw [hdw2]
    rw [if_neg (show ¬ ((joinToksC (t0 :: ts2) ++ [']']).head? = some ']') by
      rw [hjr, List.cons_append, List.head?_cons]
      simp [hrb])]
    rw [parseCore_items_join ts2 t0 [] F (fun t htm => h t htm) hFbig]
    simp

/-- C5 amended: for every JSON array of integer literals truncated
immediately after a complete top-level element (the k-th, k at least one),
extract with array shape returns exactly the first k elements — a prefix of
the original array, never more and never altered.  (The restrictions are
forced by the counterexample: truncation inside a later element can return
null or an altered last element, and elements whose serialization contains
quotes or brackets can defeat the trim patterns.) -/
theorem c5_amended_boundary_truncation_prefix (toks : List (List Char)) (k : Nat)
    (htoks : ∀ t ∈ toks, intTokOK t = true)
    (hk1 : 1 ≤ k) (hk2 : k ≤ toks.length) :
    parseJSONSafely (String.mk (arrayPrefixText (toks.take k))) true =
      some (Json.arr ((toks.take k).map (fun t => Json.num (String.mk t)))) := by
  have hts : ∀ t ∈ toks.take k, intTokOK t = true :=
    fun t htm => htoks t (List.mem_of_mem_take htm)
  have htsne : toks.take k ≠ [] := by
    intro h0
    have hlen : (toks.take k).length = min k toks.length := List.length_take k toks
    rw [h0] at hlen
    simp at hlen
    omega
  have hclassJ : ∀ c ∈ joinToksC (toks.take k), c = ',' ∨ c = '-' ∨ isDigitC c = true :=
    joinToks_chars (toks.take k) hts
  have hJne : joinToksC (toks.take k) ≠ [] := joinToks_ne_nil (toks.take k) htsne hts
  have htext : String.mk (arrayPrefixText (toks.take k)) ≠ "" := by
    intro he
    have hd := congrArg String.data he
    rw [show (String.mk (arrayPrefixText (toks.take k))).data =
      '[' :: joinToksC (toks.take k) from rfl] at hd
    cases hd
  have hdb : dropBefore '[' ('[' :: joinToksC (toks.take k)) =
      some ('[' :: joinToksC (toks.take k)) := by
    rw [show dropBefore '[' ('[' :: joinToksC (toks.take k)) =
      (if ('[' : Char) = '[' then some ('[' :: joinToksC (toks.take k))
       else dropBefore '[' (joinToksC (toks.take k))) from rfl]
    rw [if_pos rfl]
  have hdirect : jsMatchGreedy '[' ']' ('[' :: joinToksC (toks.take k)) = none := by
    unfold jsMatchGreedy
    rw [hdb]
    simp only [takeThroughLast_eq_none ']' (joinToksC (toks.take k)) (fun c hc =>
      (tokchar_facts c (hclassJ c hc)).2.2.2.2.2.1)]
  have hrep : repairedOf true ('[' :: joinToksC (toks.take k)) =
      some ('[' :: joinToksC (toks.take k) ++ [']']) := by
    unfold repairedOf jsMatchToEnd
    rw [show (if (true : Bool) then '[' else '{') = '[' from rfl]
    rw [hdb]
    rw [show Option.map (fun j0 => closeOpen (trimAll j0))
      (some ('[' :: joinToksC (toks.take k))) =
        some (closeOpen (trimAll ('[' :: joinToksC (toks.take k)))) from rfl]
    rw [trimAll_self ('[' :: joinToksC (toks.take k))
      (fun c hc => by
        rcases List.mem_cons.mp hc with rfl | hc2
        · exact Or.inl rfl
        · exact Or.inr (hclassJ c hc2))
      (by
        obtain ⟨d, hd, hdig⟩ := joinToks_getLast_digit (toks.take k) htsne hts
        refine ⟨d, ?_, hdig⟩
        rw [show ('[' :: joinToksC (toks.take k)) = ['['] ++ joinToksC (toks.take k) from rfl,
          List.getLast?_append_of_ne_nil ['['] hJne]
        exact hd)]
    rw [closeOpen_bracket (joinToksC (toks.take k)) hclassJ]
  have hparse : parseJsonL ('[' :: joinToksC (toks.take k) ++ [']']) =
      some (Json.arr ((toks.take k).map (fun t => Json.num (String.mk t)))) := by
    have hp := parseJsonL_arrayPrefix (toks.take k) htsne hts
    rw [show arrayPrefixText (toks.take k) ++ [']'] =
      '[' :: joinToksC (toks.take k) ++ [']'] from rfl] at hp
    exact hp
  unfold parseJSONSafely
  rw [if_neg htext]
  rw [show (String.mk (arrayPrefixText (toks.take k))).data =
    '[' :: joinToksC (toks.take k) from rfl]
  rw [show (if (true : Bool) then '[' else '{') = '[' from rfl,
    show (if (true : Bool) then ']' else '}') = ']' from rfl]
  rw [hdirect]
  rw [show (none : Option (List Char)).bind parseJsonL = none from rfl]
  rw [hrep]
  simp only [hparse]

/-- C5 witness: the two-element array [1,23] truncated right after its
first element extracts to the one-element prefix [1]. -/
theorem c5_amended_witness :
    (∀ t ∈ ([['1'], ['2', '3']] : List (List Char)), intTokOK t = true) ∧
      1 ≤ 1 ∧ 1 ≤ ([['1'], ['2', '3']] : List (List Char)).length ∧
      parseJSONSafely (String.mk (arrayPrefixText (([['1'], ['2', '3']] : List (List Char)).take 1)))
          true =
        some (Json.arr ((([['1'], ['2', '3']] : List (List Char)).take 1).map
          (fun t => Json.num (String.mk t)))) :=
  ⟨by decide, by decide, by decide,
    c5_amended_boundary_truncation_prefix [['1'], ['2', '3']] 1 (by decide) (by decide)
      (by decide)⟩
